import Mathlib

/-!
Shallow embedding of the mini-js lexical analyzer
(`src/scanner/scanner.c`, the explicit-state version declared in
`scanner.h`), together with proofs of the specified properties.

The C scanner owns a cursor into an immutable, null-terminated source
buffer.  We model the buffer as the `List Char` of its characters before
the terminating sentinel; reading at or past the end of that list yields
the sentinel `nul`, exactly as dereferencing the terminator does in C.
Pointers `start`/`current` become natural-number offsets into the buffer.

Every internal `while`/`for` loop of the C code is embedded as a
structurally recursive function on an explicit step budget ("fuel"); the
public entry points supply the budget `source.length + 1 - current`,
which is shown to be sufficient wherever the proofs need the loop to run
to its C stopping condition.  This keeps every definition executable by
kernel reduction.
-/

namespace MiniJs

/-- Token kinds, transcribed from the `TokenType` enum in `scanner.h`. -/
inductive TokenType where
  | LEFT_PAREN | RIGHT_PAREN
  | LEFT_BRACE | RIGHT_BRACE
  | COMMA | DOT | MINUS | PLUS
  | SEMICOLON | SLASH | STAR
  | BANG | BANG_EQUAL
  | EQUAL | EQUAL_EQUAL
  | GREATER | GREATER_EQUAL
  | LESS | LESS_EQUAL
  | IDENTIFIER | STRING | NUMBER | BIGINT
  | AND | CLASS | CONST | ELSE | FALSE
  | FOR | FUN | IF | LET | NULL | OR
  | PRINT | RETURN | SUPER | THIS
  | TRUE | VAR | WHILE
  | ERROR | EOF
deriving DecidableEq

/-- The NUL sentinel that terminates every C source buffer. -/
def nul : Char := Char.ofNat 0

/-- Scanner state from `scanner.h`: a borrowed source buffer plus the
`start`/`current` cursor offsets and the 1-based line counter. -/
structure Scanner where
  source : List Char
  start : Nat
  current : Nat
  line : Nat
deriving DecidableEq

/-- A token as in `scanner.h`.  The C struct stores a borrowed
pointer+length view; we store the viewed characters themselves (for
ordinary tokens a slice of the source, for error tokens the static
diagnostic message). -/
structure Token where
  type : TokenType
  lexeme : List Char
  line : Nat
deriving DecidableEq

/-- Reading the buffer at offset `i`; at or past the end of the stored
characters this is the NUL terminator, as in C. -/
def charAt (sc : Scanner) (i : Nat) : Char := sc.source.getD i nul

/-- C `isAtEnd`: `*scanner->current == '\0'`. -/
def isAtEnd (sc : Scanner) : Bool := charAt sc sc.current == nul

/-- C `advance`: `scanner->current++; return scanner->current[-1];`.
Returns the successor state and the consumed character. -/
def advance (sc : Scanner) : Scanner × Char :=
  ({ sc with current := sc.current + 1 }, charAt sc sc.current)

/-- C `peek`: lookahead 1 without consuming. -/
def peek (sc : Scanner) : Char :=
  if isAtEnd sc then nul else charAt sc sc.current

/-- C `peekNext`: lookahead 2 without consuming. -/
def peekNext (sc : Scanner) : Char :=
  if isAtEnd sc then nul else charAt sc (sc.current + 1)

/-- C `match`: consume the current character only when it equals
`expected`.  (`match` is a reserved word in Lean, hence the name.) -/
def matchChar (sc : Scanner) (expected : Char) : Scanner × Bool :=
  if isAtEnd sc then (sc, false)
  else if charAt sc sc.current ≠ expected then (sc, false)
  else ({ sc with current := sc.current + 1 }, true)

/-- The characters currently spanned by `[start, current)`, i.e. the
lexeme view a C token borrows. -/
def lexemeOf (sc : Scanner) : List Char :=
  (sc.source.drop sc.start).take (sc.current - sc.start)

/-- C `makeToken`: token of the given kind over `[start, current)` at the
scanner's current line. -/
def makeToken (sc : Scanner) (type : TokenType) : Token :=
  { type := type, lexeme := lexemeOf sc, line := sc.line }

/-- C `errorToken`: a `TOKEN_ERROR` viewing the static message, at the
scanner's current line. -/
def errorToken (sc : Scanner) (message : List Char) : Token :=
  { type := TokenType.ERROR, lexeme := message, line := sc.line }

/-- C `isDigit`: the branchless `(unsigned)(c - '0') < 10`, which its own
doc comment states is true exactly for `'0'..'9'` (byte values 48-57). -/
def isDigit (c : Char) : Bool := 48 ≤ c.toNat && c.toNat ≤ 57

/-- C `isAlpha`: the branchless `((unsigned)((c | 32) - 'a') < 26) || c == '_'`,
true exactly for `'a'..'z'`, `'A'..'Z'` and `'_'` (the documented behavior;
`c | 32` lowercases an ASCII letter). -/
def isAlpha (c : Char) : Bool :=
  (97 ≤ c.toNat && c.toNat ≤ 122) || (65 ≤ c.toNat && c.toNat ≤ 90) || c == '_'

/-- C `isAlphaNumeric`. -/
def isAlphaNumeric (c : Char) : Bool := isAlpha c || isDigit c

/-- The leading whitespace loop of C `scanToken` (label `scan_next`):
consume spaces, carriage returns and tabs silently and newlines while
incrementing `line`; any other character (including the terminator) ends
the loop. -/
def skipWs : Nat → Scanner → Scanner
  | 0, sc => sc
  | fuel + 1, sc =>
    if charAt sc sc.current == ' ' || charAt sc sc.current == '\r' ||
        charAt sc sc.current == '\t' then
      skipWs fuel { sc with current := sc.current + 1 }
    else if charAt sc sc.current == '\n' then
      skipWs fuel { sc with current := sc.current + 1, line := sc.line + 1 }
    else sc

/-- The comment body loop of C `scanToken`:
`while (peek(scanner) != '\n' && !isAtEnd(scanner)) advance(scanner);`. -/
def commentBody : Nat → Scanner → Scanner
  | 0, sc => sc
  | fuel + 1, sc =>
    if peek sc != '\n' && !(isAtEnd sc) then
      commentBody fuel { sc with current := sc.current + 1 }
    else sc

/-- The loop of C `identifier`:
`while (isAlphaNumeric(peek(scanner))) advance(scanner);`. -/
def identLoop : Nat → Scanner → Scanner
  | 0, sc => sc
  | fuel + 1, sc =>
    if isAlphaNumeric (peek sc) then
      identLoop fuel { sc with current := sc.current + 1 }
    else sc

/-- The digit-run loop of C `number`:
`while (isDigit(peek(scanner))) advance(scanner);`. -/
def digitsLoop : Nat → Scanner → Scanner
  | 0, sc => sc
  | fuel + 1, sc =>
    if isDigit (peek sc) then
      digitsLoop fuel { sc with current := sc.current + 1 }
    else sc

/-- The body loop of C `string`: consume characters until the closing
quote or end-of-source, incrementing `line` at each interior newline. -/
def stringLoop : Nat → Scanner → Scanner
  | 0, sc => sc
  | fuel + 1, sc =>
    if peek sc != '"' && !(isAtEnd sc) then
      stringLoop fuel
        { sc with current := sc.current + 1,
                  line := if peek sc == '\n' then sc.line + 1 else sc.line }
    else sc

/-- Step budget sufficient for any loop starting at `sc.current` to reach
the terminator: one step per remaining character plus one. -/
def fuelOf (sc : Scanner) : Nat := sc.source.length + 1 - sc.current

/-- C `checkKeyword`: keyword `type` exactly when the token has length
`offset + length` and the `length` characters at `start + offset` equal
`rest` (the `memcmp`); otherwise a plain identifier. -/
def checkKeyword (sc : Scanner) (token_length : Nat) (offset : Nat)
    (length : Nat) (rest : List Char) (type : TokenType) : TokenType :=
  if token_length = offset + length ∧
      (sc.source.drop (sc.start + offset)).take length = rest then type
  else TokenType.IDENTIFIER

/-- C `identifierType`: the hardcoded trie switching on the first (and
where needed second) character of the lexeme. -/
def identifierType (sc : Scanner) : TokenType :=
  let len := sc.current - sc.start
  let c0 := charAt sc sc.start
  if c0 = 'a' then checkKeyword sc len 1 2 (String.toList "nd") TokenType.AND
  else if c0 = 'c' then
    if len > 1 then
      let c1 := charAt sc (sc.start + 1)
      if c1 = 'l' then checkKeyword sc len 2 3 (String.toList "ass") TokenType.CLASS
      else if c1 = 'o' then checkKeyword sc len 2 3 (String.toList "nst") TokenType.CONST
      else TokenType.IDENTIFIER
    else TokenType.IDENTIFIER
  else if c0 = 'e' then checkKeyword sc len 1 3 (String.toList "lse") TokenType.ELSE
  else if c0 = 'f' then
    if len > 1 then
      let c1 := charAt sc (sc.start + 1)
      if c1 = 'a' then checkKeyword sc len 2 3 (String.toList "lse") TokenType.FALSE
      else if c1 = 'o' then checkKeyword sc len 2 1 (String.toList "r") TokenType.FOR
      else if c1 = 'u' then checkKeyword sc len 2 1 (String.toList "n") TokenType.FUN
      else TokenType.IDENTIFIER
    else TokenType.IDENTIFIER
  else if c0 = 'i' then checkKeyword sc len 1 1 (String.toList "f") TokenType.IF
  else if c0 = 'l' then checkKeyword sc len 1 2 (String.toList "et") TokenType.LET
  else if c0 = 'n' then checkKeyword sc len 1 3 (String.toList "ull") TokenType.NULL
  else if c0 = 'o' then checkKeyword sc len 1 1 (String.toList "r") TokenType.OR
  else if c0 = 'p' then checkKeyword sc len 1 4 (String.toList "rint") TokenType.PRINT
  else if c0 = 'r' then checkKeyword sc len 1 5 (String.toList "eturn") TokenType.RETURN
  else if c0 = 's' then checkKeyword sc len 1 4 (String.toList "uper") TokenType.SUPER
  else if c0 = 't' then
    if len > 1 then
      let c1 := charAt sc (sc.start + 1)
      if c1 = 'h' then checkKeyword sc len 2 2 (String.toList "is") TokenType.THIS
      else if c1 = 'r' then checkKeyword sc len 2 2 (String.toList "ue") TokenType.TRUE
      else TokenType.IDENTIFIER
    else TokenType.IDENTIFIER
  else if c0 = 'v' then checkKeyword sc len 1 2 (String.toList "ar") TokenType.VAR
  else if c0 = 'w' then checkKeyword sc len 1 4 (String.toList "hile") TokenType.WHILE
  else TokenType.IDENTIFIER

/-- C `identifier`: run the alphanumeric loop, then classify. -/
def identifier (sc : Scanner) : Scanner × Token :=
  let sc := identLoop (fuelOf sc) sc
  (sc, makeToken sc (identifierType sc))

/-- C `number`: maximal digit run, optional fraction (`'.'` followed by a
digit) with a further digit run, else optional big-integer suffix `'n'`. -/
def number (sc : Scanner) : Scanner × Token :=
  let sc := digitsLoop (fuelOf sc) sc
  if peek sc == '.' && isDigit (peekNext sc) then
    let sc1 := { sc with current := sc.current + 1 }
    let sc2 := digitsLoop (fuelOf sc1) sc1
    (sc2, makeToken sc2 TokenType.NUMBER)
  else if peek sc == 'n' then
    let sc1 := { sc with current := sc.current + 1 }
    (sc1, makeToken sc1 TokenType.BIGINT)
  else (sc, makeToken sc TokenType.NUMBER)

/-- C `string`: scan to the closing quote; an exhausted buffer yields the
"Unterminated string." error token, otherwise the closing quote is
consumed and a string token (quotes included in the lexeme) is made. -/
def string (sc : Scanner) : Scanner × Token :=
  let sc := stringLoop (fuelOf sc) sc
  if isAtEnd sc then (sc, errorToken sc (String.toList "Unterminated string."))
  else
    let sc1 := { sc with current := sc.current + 1 }
    (sc1, makeToken sc1 TokenType.STRING)

/-- C `scanToken`.  The fuel argument bounds the number of times the
`goto scan_next` comment restart may fire; the wrapper `scanToken` below
supplies a sufficient budget (each restart consumes the two slashes, so
restarts can never exhaust it).  The fuel-exhausted fallback coincides
with the at-end result and is proved unreachable where it matters. -/
def scanTokenF : Nat → Scanner → Scanner × Token
  | 0, sc =>
    let sc := { sc with start := sc.current }
    (sc, makeToken sc TokenType.EOF)
  | fuel + 1, sc =>
    let sc := skipWs (fuelOf sc) sc
    let sc := { sc with start := sc.current }
    if isAtEnd sc then (sc, makeToken sc TokenType.EOF)
    else
      let c := charAt sc sc.current
      let sc := { sc with current := sc.current + 1 }
      if c = '(' then (sc, makeToken sc TokenType.LEFT_PAREN)
      else if c = ')' then (sc, makeToken sc TokenType.RIGHT_PAREN)
      else if c = '\x7b' then (sc, makeToken sc TokenType.LEFT_BRACE)
      else if c = '\x7d' then (sc, makeToken sc TokenType.RIGHT_BRACE)
      else if c = ';' then (sc, makeToken sc TokenType.SEMICOLON)
      else if c = ',' then (sc, makeToken sc TokenType.COMMA)
      else if c = '.' then (sc, makeToken sc TokenType.DOT)
      else if c = '-' then (sc, makeToken sc TokenType.MINUS)
      else if c = '+' then (sc, makeToken sc TokenType.PLUS)
      else if c = '*' then (sc, makeToken sc TokenType.STAR)
      else if c = '"' then string sc
      else if c = '/' then
        match matchChar sc '/' with
        | (sc, true) => scanTokenF fuel (commentBody (fuelOf sc) sc)
        | (sc, false) => (sc, makeToken sc TokenType.SLASH)
      else if c = '!' then
        match matchChar sc '=' with
        | (sc, m) =>
          (sc, makeToken sc (if m then TokenType.BANG_EQUAL else TokenType.BANG))
      else if c = '=' then
        match matchChar sc '=' with
        | (sc, m) =>
          (sc, makeToken sc (if m then TokenType.EQUAL_EQUAL else TokenType.EQUAL))
      else if c = '<' then
        match matchChar sc '=' with
        | (sc, m) =>
          (sc, makeToken sc (if m then TokenType.LESS_EQUAL else TokenType.LESS))
      else if c = '>' then
        match matchChar sc '=' with
        | (sc, m) =>
          (sc, makeToken sc (if m then TokenType.GREATER_EQUAL else TokenType.GREATER))
      else if isDigit c then number sc
      else if isAlpha c then identifier sc
      else (sc, errorToken sc (String.toList "Unexpected character."))

/-- Public `scanToken` of `scanner.h`: one call with a sufficient restart
budget. -/
def scanToken (sc : Scanner) : Scanner × Token := scanTokenF (fuelOf sc) sc

/-- C `initScanner`: bind the buffer (a `NULL` pointer, modeled as `none`,
is replaced by the empty string), cursor at the buffer start, line 1. -/
def initScanner (source : Option (List Char)) : Scanner :=
  { source := source.getD [], start := 0, current := 0, line := 1 }

/-- The token sequence obtained by calling `scanToken` repeatedly until
the first end-of-source token (inclusive), producing at most `fuel`
tokens. -/
def tokenList (sc : Scanner) (fuel : Nat) : List Token :=
  match fuel with
  | 0 => []
  | fuel + 1 =>
    let r := scanToken sc
    if r.2.type = TokenType.EOF then [r.2] else r.2 :: tokenList r.1 fuel

/-- The scanner state after `n` calls to `scanToken`. -/
def nthState (sc : Scanner) : Nat → Scanner
  | 0 => sc
  | n + 1 => (scanToken (nthState sc n)).1

/-- The token returned by the `(n+1)`-st call to `scanToken`. -/
def nthToken (sc : Scanner) (n : Nat) : Token := (scanToken (nthState sc n)).2

/-- 1-based line number of buffer offset `i`: one plus the newlines
strictly before it. -/
def lineAt (src : List Char) (i : Nat) : Nat :=
  1 + (src.take i).countP (fun c => c == '\n')

/-- The 18 reserved words of the language, as listed in the spec and in
the `identifierType` trie. -/
def keywordList : List (List Char) :=
  [String.toList "and", String.toList "class", String.toList "const",
   String.toList "else", String.toList "false", String.toList "for",
   String.toList "fun", String.toList "if", String.toList "let",
   String.toList "null", String.toList "or", String.toList "print",
   String.toList "return", String.toList "super", String.toList "this",
   String.toList "true", String.toList "var", String.toList "while"]

/-- Keyword classification as the spec words it: the keyword's token kind
exactly when the whole lexeme is string-equal to that reserved word,
otherwise a plain identifier.  This is the specification-side definition
the trie `identifierType` is proved to refine. -/
def keywordSpec (l : List Char) : TokenType :=
  if l = String.toList "and" then TokenType.AND
  else if l = String.toList "class" then TokenType.CLASS
  else if l = String.toList "const" then TokenType.CONST
  else if l = String.toList "else" then TokenType.ELSE
  else if l = String.toList "false" then TokenType.FALSE
  else if l = String.toList "for" then TokenType.FOR
  else if l = String.toList "fun" then TokenType.FUN
  else if l = String.toList "if" then TokenType.IF
  else if l = String.toList "let" then TokenType.LET
  else if l = String.toList "null" then TokenType.NULL
  else if l = String.toList "or" then TokenType.OR
  else if l = String.toList "print" then TokenType.PRINT
  else if l = String.toList "return" then TokenType.RETURN
  else if l = String.toList "super" then TokenType.SUPER
  else if l = String.toList "this" then TokenType.THIS
  else if l = String.toList "true" then TokenType.TRUE
  else if l = String.toList "var" then TokenType.VAR
  else if l = String.toList "while" then TokenType.WHILE
  else TokenType.IDENTIFIER

/-- The characters of buffer positions `[a, b)`. -/
def slice (src : List Char) (a b : Nat) : List Char := (src.drop a).take (b - a)

/-- Invariant bundle relating one `scanToken` result to its pre-state: the
buffer is unchanged; the cursor moved monotonically and stays within the
buffer, sentinel position included; the token's start offset lies between
the old and the new cursor; producing any token other than end-of-source
consumed at least one character; the token's line field is the final line
counter; a line counter equal to the line of the cursor position stays so;
and a token that is neither a string literal nor an error spans no
newline, i.e. its start and end positions lie on the same source line. -/
def ScanInv (sc : Scanner) (p : Scanner × Token) : Prop :=
  p.1.source = sc.source ∧
  sc.current ≤ p.1.current ∧
  p.1.current ≤ sc.source.length ∧
  sc.current ≤ p.1.start ∧
  p.1.start ≤ p.1.current ∧
  (p.2.type ≠ TokenType.EOF → sc.current < p.1.current) ∧
  p.2.line = p.1.line ∧
  (sc.line = lineAt sc.source sc.current →
    p.1.line = lineAt sc.source p.1.current) ∧
  (p.2.type ≠ TokenType.STRING → p.2.type ≠ TokenType.ERROR →
    lineAt sc.source p.1.start = lineAt sc.source p.1.current)

theorem charAt_lt_of_ne_nul {sc : Scanner} {i : Nat} (h : charAt sc i ≠ nul) :
    i < sc.source.length := by
  by_contra hge
  exact h (List.getD_eq_default _ _ (Nat.le_of_not_lt hge))

theorem charAt_of_le_length {sc : Scanner} {i : Nat} (h : sc.source.length ≤ i) :
    charAt sc i = nul :=
  List.getD_eq_default _ _ h

theorem skipWs_source (fuel : Nat) (sc : Scanner) : (skipWs fuel sc).source = sc.source := by
  induction fuel generalizing sc with
  | zero => rfl
  | succ n ih =>
    simp only [skipWs]
    split
    · exact ih _
    · split
      · exact ih _
      · rfl

theorem skipWs_start (fuel : Nat) (sc : Scanner) : (skipWs fuel sc).start = sc.start := by
  induction fuel generalizing sc with
  | zero => rfl
  | succ n ih =>
    simp only [skipWs]
    split
    · exact ih _
    · split
      · exact ih _
      · rfl

theorem skipWs_mono (fuel : Nat) (sc : Scanner) : sc.current ≤ (skipWs fuel sc).current := by
  induction fuel generalizing sc with
  | zero => exact Nat.le_refl _
  | succ n ih =>
    simp only [skipWs]
    split
    · exact Nat.le_trans (Nat.le_succ _) (ih { sc with current := sc.current + 1 })
    · split
      · exact Nat.le_trans (Nat.le_succ _)
          (ih { sc with current := sc.current + 1, line := sc.line + 1 })
      · exact Nat.le_refl _

theorem skipWs_le (fuel : Nat) (sc : Scanner) (h : sc.current ≤ sc.source.length) :
    (skipWs fuel sc).current ≤ sc.source.length := by
  induction fuel generalizing sc with
  | zero => exact h
  | succ n ih =>
    simp only [skipWs]
    split
    · rename_i hc
      have hne : charAt sc sc.current ≠ nul := by
        rcases Bool.or_eq_true_iff.mp hc with hc' | hc'
        · rcases Bool.or_eq_true_iff.mp hc' with hc'' | hc''
          · intro hnul; rw [hnul] at hc''; exact absurd (of_decide_eq_true hc'') (by decide)
          · intro hnul; rw [hnul] at hc''; exact absurd (of_decide_eq_true hc'') (by decide)
        · intro hnul; rw [hnul] at hc'; exact absurd (of_decide_eq_true hc') (by decide)
      exact ih _ (charAt_lt_of_ne_nul hne)
    · split
      · rename_i hc
        have hne : charAt sc sc.current ≠ nul := by
          intro hnul; rw [hnul] at hc; exact absurd (of_decide_eq_true hc) (by decide)
        exact ih _ (charAt_lt_of_ne_nul hne)
      · exact h

theorem peek_eq_charAt (sc : Scanner) : peek sc = charAt sc sc.current := by
  simp only [peek, isAtEnd]
  split
  · rename_i h
    exact (beq_iff_eq.mp h).symm
  · rfl

theorem not_atEnd_lt {sc : Scanner} (h : isAtEnd sc = false) :
    sc.current < sc.source.length := by
  refine charAt_lt_of_ne_nul (fun hnul => ?_)
  rw [isAtEnd, hnul] at h
  simp at h

theorem alnum_ne_nul {c : Char} (h : isAlphaNumeric c = true) : c ≠ nul := by
  intro hc
  subst hc
  exact absurd h (by decide)

theorem digit_ne_nul {c : Char} (h : isDigit c = true) : c ≠ nul := by
  intro hc
  subst hc
  exact absurd h (by decide)

theorem commentBody_inv (fuel : Nat) (sc : Scanner) :
    (commentBody fuel sc).source = sc.source ∧
    (commentBody fuel sc).start = sc.start ∧
    sc.current ≤ (commentBody fuel sc).current ∧
    (sc.current ≤ sc.source.length →
      (commentBody fuel sc).current ≤ sc.source.length) := by
  induction fuel generalizing sc with
  | zero => exact ⟨rfl, rfl, Nat.le_refl _, fun h => h⟩
  | succ n ih =>
    simp only [commentBody]
    split
    · rename_i hcond
      obtain ⟨hs, hst, hm, hle⟩ := ih { sc with current := sc.current + 1 }
      refine ⟨hs, hst, Nat.le_trans (Nat.le_succ _) hm, fun _ => ?_⟩
      have hend : isAtEnd sc = false := by
        have h2 := (Bool.and_eq_true _ _).mp hcond |>.2
        simpa using h2
      exact hle (not_atEnd_lt hend)
    · exact ⟨rfl, rfl, Nat.le_refl _, fun h => h⟩

theorem identLoop_inv (fuel : Nat) (sc : Scanner) :
    (identLoop fuel sc).source = sc.source ∧
    (identLoop fuel sc).start = sc.start ∧
    sc.current ≤ (identLoop fuel sc).current ∧
    (sc.current ≤ sc.source.length →
      (identLoop fuel sc).current ≤ sc.source.length) := by
  induction fuel generalizing sc with
  | zero => exact ⟨rfl, rfl, Nat.le_refl _, fun h => h⟩
  | succ n ih =>
    simp only [identLoop]
    split
    · rename_i hcond
      obtain ⟨hs, hst, hm, hle⟩ := ih { sc with current := sc.current + 1 }
      refine ⟨hs, hst, Nat.le_trans (Nat.le_succ _) hm, fun _ => ?_⟩
      have hne : charAt sc sc.current ≠ nul := by
        rw [← peek_eq_charAt]
        exact alnum_ne_nul hcond
      exact hle (charAt_lt_of_ne_nul hne)
    · exact ⟨rfl, rfl, Nat.le_refl _, fun h => h⟩

theorem digitsLoop_inv (fuel : Nat) (sc : Scanner) :
    (digitsLoop fuel sc).source = sc.source ∧
    (digitsLoop fuel sc).start = sc.start ∧
    sc.current ≤ (digitsLoop fuel sc).current ∧
    (sc.current ≤ sc.source.length →
      (digitsLoop fuel sc).current ≤ sc.source.length) := by
  induction fuel generalizing sc with
  | zero => exact ⟨rfl, rfl, Nat.le_refl _, fun h => h⟩
  | succ n ih =>
    simp only [digitsLoop]
    split
    · rename_i hcond
      obtain ⟨hs, hst, hm, hle⟩ := ih { sc with current := sc.current + 1 }
      refine ⟨hs, hst, Nat.le_trans (Nat.le_succ _) hm, fun _ => ?_⟩
      have hne : charAt sc sc.current ≠ nul := by
        rw [← peek_eq_charAt]
        exact digit_ne_nul hcond
      exact hle (charAt_lt_of_ne_nul hne)
    · exact ⟨rfl, rfl, Nat.le_refl _, fun h => h⟩

theorem stringLoop_inv (fuel : Nat) (sc : Scanner) :
    (stringLoop fuel sc).source = sc.source ∧
    (stringLoop fuel sc).start = sc.start ∧
    sc.current ≤ (stringLoop fuel sc).current ∧
    (sc.current ≤ sc.source.length →
      (stringLoop fuel sc).current ≤ sc.source.length) := by
  induction fuel generalizing sc with
  | zero => exact ⟨rfl, rfl, Nat.le_refl _, fun h => h⟩
  | succ n ih =>
    simp only [stringLoop]
    split
    · rename_i hcond
      obtain ⟨hs, hst, hm, hle⟩ :=
        ih { sc with current := sc.current + 1,
                     line := if peek sc == '\n' then sc.line + 1 else sc.line }
      refine ⟨hs, hst, Nat.le_trans (Nat.le_succ _) hm, fun _ => ?_⟩
      have hend : isAtEnd sc = false := by
        have h2 := (Bool.and_eq_true _ _).mp hcond |>.2
        simpa using h2
      exact hle (not_atEnd_lt hend)
    · exact ⟨rfl, rfl, Nat.le_refl _, fun h => h⟩

theorem skipWs_stop (fuel : Nat) (sc : Scanner) (h : sc.current ≤ sc.source.length)
    (hf : sc.source.length + 1 - sc.current ≤ fuel) :
    charAt (skipWs fuel sc) (skipWs fuel sc).current ≠ ' ' ∧
    charAt (skipWs fuel sc) (skipWs fuel sc).current ≠ '\r' ∧
    charAt (skipWs fuel sc) (skipWs fuel sc).current ≠ '\t' ∧
    charAt (skipWs fuel sc) (skipWs fuel sc).current ≠ '\n' := by
  induction fuel generalizing sc with
  | zero => omega
  | succ n ih =>
    simp only [skipWs]
    split
    · rename_i hc
      have hne : charAt sc sc.current ≠ nul := by
        intro hnul
        rw [hnul] at hc
        exact absurd hc (by decide)
      have hlt := charAt_lt_of_ne_nul hne
      exact ih { sc with current := sc.current + 1 } hlt (by simpa using by omega)
    · split
      · rename_i hc
        have hne : charAt sc sc.current ≠ nul := by
          intro hnul
          rw [hnul] at hc
          exact absurd hc (by decide)
        have hlt := charAt_lt_of_ne_nul hne
        exact ih { sc with current := sc.current + 1, line := sc.line + 1 } hlt
          (by simpa using by omega)
      · rename_i hc1 hc2
        simp only [Bool.or_eq_true, beq_iff_eq] at hc1 hc2
        push_neg at hc1
        exact ⟨hc1.1.1, hc1.1.2, hc1.2, hc2⟩

theorem identLoop_stop (fuel : Nat) (sc : Scanner) (h : sc.current ≤ sc.source.length)
    (hf : sc.source.length + 1 - sc.current ≤ fuel) :
    isAlphaNumeric (peek (identLoop fuel sc)) = false := by
  induction fuel generalizing sc with
  | zero => omega
  | succ n ih =>
    simp only [identLoop]
    split
    · rename_i hcond
      have hne : charAt sc sc.current ≠ nul := by
        rw [← peek_eq_charAt]
        exact alnum_ne_nul hcond
      have hlt := charAt_lt_of_ne_nul hne
      exact ih { sc with current := sc.current + 1 } hlt (by simpa using by omega)
    · rename_i hcond
      exact Bool.not_eq_true _ |>.mp hcond

theorem digitsLoop_stop (fuel : Nat) (sc : Scanner) (h : sc.current ≤ sc.source.length)
    (hf : sc.source.length + 1 - sc.current ≤ fuel) :
    isDigit (peek (digitsLoop fuel sc)) = false := by
  induction fuel generalizing sc with
  | zero => omega
  | succ n ih =>
    simp only [digitsLoop]
    split
    · rename_i hcond
      have hne : charAt sc sc.current ≠ nul := by
        rw [← peek_eq_charAt]
        exact digit_ne_nul hcond
      have hlt := charAt_lt_of_ne_nul hne
      exact ih { sc with current := sc.current + 1 } hlt (by simpa using by omega)
    · rename_i hcond
      exact Bool.not_eq_true _ |>.mp hcond

theorem stringLoop_stop (fuel : Nat) (sc : Scanner) (h : sc.current ≤ sc.source.length)
    (hf : sc.source.length + 1 - sc.current ≤ fuel) :
    peek (stringLoop fuel sc) = '"' ∨ isAtEnd (stringLoop fuel sc) = true := by
  induction fuel generalizing sc with
  | zero => omega
  | succ n ih =>
    simp only [stringLoop]
    split
    · rename_i hcond
      have hend : isAtEnd sc = false := by
        have h2 := (Bool.and_eq_true _ _).mp hcond |>.2
        simpa using h2
      have hlt := not_atEnd_lt hend
      exact ih _ hlt (by simpa using by omega)
    · rename_i hcond
      simp only [Bool.and_eq_true, bne_iff_ne, Bool.not_eq_true', not_and] at hcond
      by_cases hp : peek sc = '"'
      · exact Or.inl hp
      · exact Or.inr (eq_true_of_ne_false (hcond hp))

theorem commentBody_stop (fuel : Nat) (sc : Scanner) (h : sc.current ≤ sc.source.length)
    (hf : sc.source.length + 1 - sc.current ≤ fuel) :
    peek (commentBody fuel sc) = '\n' ∨ isAtEnd (commentBody fuel sc) = true := by
  induction fuel generalizing sc with
  | zero => omega
  | succ n ih =>
    simp only [commentBody]
    split
    · rename_i hcond
      have hend : isAtEnd sc = false := by
        have h2 := (Bool.and_eq_true _ _).mp hcond |>.2
        simpa using h2
      have hlt := not_atEnd_lt hend
      exact ih _ hlt (by simpa using by omega)
    · rename_i hcond
      simp only [Bool.and_eq_true, bne_iff_ne, Bool.not_eq_true', not_and] at hcond
      by_cases hp : peek sc = '\n'
      · exact Or.inl hp
      · exact Or.inr (eq_true_of_ne_false (hcond hp))

theorem lineAt_succ (src : List Char) (i : Nat) :
    lineAt src (i + 1) =
      lineAt src i + (if src.getD i nul = '\n' then 1 else 0) := by
  by_cases h : i < src.length
  · rw [List.getD_eq_getElem src nul h]
    simp only [lineAt, List.take_succ, List.countP_append,
      List.getElem?_eq_getElem h, Option.toList_some, List.countP_cons,
      List.countP_nil, beq_iff_eq]
    by_cases hc : src[i] = '\n'
    · simp only [if_pos hc]
      omega
    · simp only [if_neg hc]
      omega
  · have hle : src.length ≤ i := Nat.le_of_not_lt h
    rw [List.getD_eq_default _ _ hle]
    rw [lineAt, lineAt, List.take_of_length_le hle,
      List.take_of_length_le (Nat.le_succ_of_le hle)]
    rw [if_neg (by decide : ¬(nul = '\n'))]
    omega

theorem lineAt_add (src : List Char) (a b : Nat) (h : a ≤ b) :
    lineAt src b = lineAt src a + (slice src a b).countP (fun c => c == '\n') := by
  have hb : b = a + (b - a) := by omega
  rw [lineAt, hb, List.take_add, List.countP_append]
  rw [lineAt, slice]
  have h2 : a + (b - a) - a = b - a := by omega
  rw [h2]
  omega

theorem slice_refl (src : List Char) (a : Nat) : slice src a a = [] := by
  simp [slice]

theorem slice_cons (src : List Char) (a b : Nat) (hab : a < b) (ha : a < src.length) :
    slice src a b = src.getD a nul :: slice src (a + 1) b := by
  rw [slice, slice, List.drop_eq_getElem_cons ha, List.getD_eq_getElem src nul ha]
  have : b - a = (b - (a + 1)) + 1 := by omega
  rw [this, List.take_succ_cons]

theorem slice_snoc (src : List Char) (a b : Nat) (hab : a ≤ b) (hb : b < src.length) :
    slice src a (b + 1) = slice src a b ++ [src.getD b nul] := by
  rw [slice, slice]
  have h1 : b + 1 - a = (b - a) + 1 := by omega
  rw [h1, List.take_succ]
  have h2 : (src.drop a)[b - a]? = some src[b] := by
    rw [List.getElem?_drop]
    have : a + (b - a) = b := by omega
    rw [this, List.getElem?_eq_getElem hb]
  rw [h2, List.getD_eq_getElem src nul hb]
  rfl

theorem skipWs_lineAt (fuel : Nat) (sc : Scanner)
    (h : sc.line = lineAt sc.source sc.current) :
    (skipWs fuel sc).line = lineAt sc.source (skipWs fuel sc).current := by
  induction fuel generalizing sc with
  | zero => exact h
  | succ n ih =>
    simp only [skipWs]
    split
    · rename_i hc
      refine ih { sc with current := sc.current + 1 } ?_
      have hc' : ¬(sc.source.getD sc.current nul = '\n') := by
        simp only [Bool.or_eq_true, beq_iff_eq, charAt] at hc
        rcases hc with (hc | hc) | hc <;> rw [hc] <;> decide
      show sc.line = lineAt sc.source (sc.current + 1)
      rw [lineAt_succ, if_neg hc', Nat.add_zero]
      exact h
    · split
      · rename_i hc1 hc2
        refine ih { sc with current := sc.current + 1, line := sc.line + 1 } ?_
        have hc' : sc.source.getD sc.current nul = '\n' := by
          simpa [charAt] using hc2
        show sc.line + 1 = lineAt sc.source (sc.current + 1)
        rw [lineAt_succ, if_pos hc']
        omega
      · exact h

theorem commentBody_lineAt (fuel : Nat) (sc : Scanner) :
    (commentBody fuel sc).line = sc.line ∧
    lineAt sc.source (commentBody fuel sc).current = lineAt sc.source sc.current := by
  induction fuel generalizing sc with
  | zero => exact ⟨rfl, rfl⟩
  | succ n ih =>
    simp only [commentBody]
    split
    · rename_i hcond
      obtain ⟨hl, hat⟩ := ih { sc with current := sc.current + 1 }
      have hat' : lineAt sc.source
          (commentBody n { sc with current := sc.current + 1 }).current =
          lineAt sc.source (sc.current + 1) := hat
      refine ⟨hl, ?_⟩
      have hcs := (Bool.and_eq_true _ _).mp hcond
      have hne : ¬(sc.source.getD sc.current nul = '\n') := by
        have := bne_iff_ne.mp hcs.1
        rw [peek_eq_charAt] at this
        exact this
      rw [hat', lineAt_succ, if_neg hne, Nat.add_zero]
    · exact ⟨rfl, rfl⟩

theorem identLoop_lineAt (fuel : Nat) (sc : Scanner) :
    (identLoop fuel sc).line = sc.line ∧
    lineAt sc.source (identLoop fuel sc).current = lineAt sc.source sc.current := by
  induction fuel generalizing sc with
  | zero => exact ⟨rfl, rfl⟩
  | succ n ih =>
    simp only [identLoop]
    split
    · rename_i hcond
      obtain ⟨hl, hat⟩ := ih { sc with current := sc.current + 1 }
      have hat' : lineAt sc.source
          (identLoop n { sc with current := sc.current + 1 }).current =
          lineAt sc.source (sc.current + 1) := hat
      refine ⟨hl, ?_⟩
      have hne : ¬(sc.source.getD sc.current nul = '\n') := by
        intro hc
        rw [peek_eq_charAt, charAt] at hcond
        rw [hc] at hcond
        exact absurd hcond (by decide)
      rw [hat', lineAt_succ, if_neg hne, Nat.add_zero]
    · exact ⟨rfl, rfl⟩

theorem digitsLoop_lineAt (fuel : Nat) (sc : Scanner) :
    (digitsLoop fuel sc).line = sc.line ∧
    lineAt sc.source (digitsLoop fuel sc).current = lineAt sc.source sc.current := by
  induction fuel generalizing sc with
  | zero => exact ⟨rfl, rfl⟩
  | succ n ih =>
    simp only [digitsLoop]
    split
    · rename_i hcond
      obtain ⟨hl, hat⟩ := ih { sc with current := sc.current + 1 }
      have hat' : lineAt sc.source
          (digitsLoop n { sc with current := sc.current + 1 }).current =
          lineAt sc.source (sc.current + 1) := hat
      refine ⟨hl, ?_⟩
      have hne : ¬(sc.source.getD sc.current nul = '\n') := by
        intro hc
        rw [peek_eq_charAt, charAt] at hcond
        rw [hc] at hcond
        exact absurd hcond (by decide)
      rw [hat', lineAt_succ, if_neg hne, Nat.add_zero]
    · exact ⟨rfl, rfl⟩

theorem stringLoop_line_eq (fuel : Nat) (sc : Scanner) :
    (stringLoop fuel sc).line =
      sc.line + (slice sc.source sc.current (stringLoop fuel sc).current).countP
        (fun c => c == '\n') := by
  induction fuel generalizing sc with
  | zero =>
    show sc.line = sc.line + (slice sc.source sc.current sc.current).countP _
    rw [slice_refl]
    rfl
  | succ n ih =>
    simp only [stringLoop]
    split
    · rename_i hcond
      have hend : isAtEnd sc = false := by
        have h2 := (Bool.and_eq_true _ _).mp hcond |>.2
        simpa using h2
      have hlt : sc.current < sc.source.length := not_atEnd_lt hend
      rw [peek_eq_charAt]
      generalize hq : (if charAt sc sc.current == '\n' then sc.line + 1 else sc.line) = line1
      set sc1 : Scanner := { sc with current := sc.current + 1, line := line1 } with hsc1
      have hmono : sc.current + 1 ≤ (stringLoop n sc1).current :=
        (stringLoop_inv n sc1).2.2.1
      have hstep : (stringLoop n sc1).line =
          line1 + (slice sc.source (sc.current + 1) (stringLoop n sc1).current).countP
            (fun c => c == '\n') := ih sc1
      rw [hstep]
      rw [slice_cons sc.source sc.current _ (Nat.lt_of_succ_le hmono) hlt]
      simp only [List.countP_cons]
      have hq' : (if (sc.source.getD sc.current nul == '\n') = true
          then sc.line + 1 else sc.line) = line1 := hq
      by_cases hnl : sc.source.getD sc.current nul = '\n'
      · rw [if_pos (beq_iff_eq.mpr hnl)] at hq'
        rw [if_pos (beq_iff_eq.mpr hnl)]
        omega
      · have hb : ¬((sc.source.getD sc.current nul == '\n') = true) := by
          simpa using hnl
        rw [if_neg hb] at hq'
        rw [if_neg hb]
        omega
    · show sc.line = sc.line + (slice sc.source sc.current sc.current).countP _
      rw [slice_refl]
      rfl

theorem stringLoop_lineAt (fuel : Nat) (sc : Scanner)
    (h : sc.line = lineAt sc.source sc.current) :
    (stringLoop fuel sc).line = lineAt sc.source (stringLoop fuel sc).current := by
  rw [stringLoop_line_eq fuel sc, h,
    ← lineAt_add sc.source sc.current (stringLoop fuel sc).current
      (stringLoop_inv fuel sc).2.2.1]

theorem skipWs_eq_self (fuel : Nat) (sc : Scanner)
    (h1 : charAt sc sc.current ≠ ' ') (h2 : charAt sc sc.current ≠ '\r')
    (h3 : charAt sc sc.current ≠ '\t') (h4 : charAt sc sc.current ≠ '\n') :
    skipWs fuel sc = sc := by
  cases fuel with
  | zero => rfl
  | succ n =>
    have hc1 : (charAt sc sc.current == ' ' || charAt sc sc.current == '\r' ||
        charAt sc sc.current == '\t') = false := by
      simp [h1, h2, h3]
    have hc2 : (charAt sc sc.current == '\n') = false := by
      simp [h4]
    simp [skipWs, hc1, hc2]

theorem matchChar_inv (sc : Scanner) (e : Char) :
    (matchChar sc e).1.source = sc.source ∧
    (matchChar sc e).1.start = sc.start ∧
    sc.current ≤ (matchChar sc e).1.current ∧
    (sc.current ≤ sc.source.length →
      (matchChar sc e).1.current ≤ sc.source.length) ∧
    (matchChar sc e).1.line = sc.line := by
  unfold matchChar
  split
  · exact ⟨rfl, rfl, Nat.le_refl _, fun hh => hh, rfl⟩
  · split
    · exact ⟨rfl, rfl, Nat.le_refl _, fun hh => hh, rfl⟩
    · rename_i h1 h2
      refine ⟨rfl, rfl, Nat.le_succ _, fun hh => ?_, rfl⟩
      have he : isAtEnd sc = false := Bool.not_eq_true _ |>.mp h1
      have := not_atEnd_lt he
      show sc.current + 1 ≤ sc.source.length
      omega

theorem matchChar_lineAt_pos (sc : Scanner) (e : Char) (he : e ≠ '\n') :
    lineAt sc.source (matchChar sc e).1.current = lineAt sc.source sc.current := by
  unfold matchChar
  split
  · rfl
  · split
    · rfl
    · rename_i h1 h2
      have hc : sc.source.getD sc.current nul = e := not_not.mp h2
      show lineAt sc.source (sc.current + 1) = lineAt sc.source sc.current
      rw [lineAt_succ, hc, if_neg he, Nat.add_zero]

theorem lexemeOf_empty (sc : Scanner) : lexemeOf { sc with start := sc.current } = [] := by
  simp [lexemeOf]

theorem scanToken_atEnd (sc : Scanner) (h : charAt sc sc.current = nul) :
    scanToken sc = ({ sc with start := sc.current },
      { type := TokenType.EOF, lexeme := [], line := sc.line }) := by
  have h1 : charAt sc sc.current ≠ ' ' := by rw [h]; decide
  have h2 : charAt sc sc.current ≠ '\r' := by rw [h]; decide
  have h3 : charAt sc sc.current ≠ '\t' := by rw [h]; decide
  have h4 : charAt sc sc.current ≠ '\n' := by rw [h]; decide
  unfold scanToken
  cases hf : fuelOf sc with
  | zero =>
    simp only [scanTokenF]
    rw [makeToken, lexemeOf_empty]
  | succ n =>
    simp only [scanTokenF]
    rw [skipWs_eq_self (fuelOf sc) sc h1 h2 h3 h4]
    have hend : isAtEnd { sc with start := sc.current } = true := by
      simp only [isAtEnd, charAt]
      exact beq_iff_eq.mpr h
    rw [if_pos hend, makeToken, lexemeOf_empty]

theorem identifier_inv (sc : Scanner) :
    (identifier sc).1.source = sc.source ∧
    (identifier sc).1.start = sc.start ∧
    sc.current ≤ (identifier sc).1.current ∧
    (sc.current ≤ sc.source.length →
      (identifier sc).1.current ≤ sc.source.length) ∧
    (identifier sc).1.line = sc.line ∧
    (identifier sc).2.line = (identifier sc).1.line ∧
    lineAt sc.source (identifier sc).1.current = lineAt sc.source sc.current := by
  obtain ⟨hs, hst, hm, hle⟩ := identLoop_inv (fuelOf sc) sc
  obtain ⟨hl, hat⟩ := identLoop_lineAt (fuelOf sc) sc
  exact ⟨hs, hst, hm, hle, hl, rfl, hat⟩

theorem number_inv (sc : Scanner) (h : sc.current ≤ sc.source.length) :
    (number sc).1.source = sc.source ∧
    (number sc).1.start = sc.start ∧
    sc.current ≤ (number sc).1.current ∧
    (number sc).1.current ≤ sc.source.length ∧
    (number sc).1.line = sc.line ∧
    (number sc).2.line = (number sc).1.line ∧
    lineAt sc.source (number sc).1.current = lineAt sc.source sc.current := by
  obtain ⟨hs1, hst1, hm1, hle1⟩ := digitsLoop_inv (fuelOf sc) sc
  obtain ⟨hl1, hat1⟩ := digitsLoop_lineAt (fuelOf sc) sc
  have hle1' : (digitsLoop (fuelOf sc) sc).current ≤ sc.source.length := hle1 h
  simp only [number]
  set r1 := digitsLoop (fuelOf sc) sc with hr1
  have hlen : r1.source.length = sc.source.length := by rw [hs1]
  split
  · rename_i hcond
    have hdot : charAt r1 r1.current = '.' := by
      have hp := (Bool.and_eq_true _ _).mp hcond |>.1
      rw [← peek_eq_charAt]
      exact beq_iff_eq.mp hp
    have hlt1 : r1.current < sc.source.length := by
      have hne : charAt r1 r1.current ≠ nul := by rw [hdot]; decide
      have hx := charAt_lt_of_ne_nul hne
      rwa [hs1] at hx
    obtain ⟨hs2, hst2, hm2, hle2⟩ :=
      digitsLoop_inv (fuelOf { r1 with current := r1.current + 1 })
        { r1 with current := r1.current + 1 }
    obtain ⟨hl2, hat2⟩ :=
      digitsLoop_lineAt (fuelOf { r1 with current := r1.current + 1 })
        { r1 with current := r1.current + 1 }
    have hm2' : r1.current + 1 ≤ (digitsLoop (fuelOf { r1 with current := r1.current + 1 })
        { r1 with current := r1.current + 1 }).current := hm2
    have hle2' : (digitsLoop (fuelOf { r1 with current := r1.current + 1 })
        { r1 with current := r1.current + 1 }).current ≤ r1.source.length :=
      hle2 (by show r1.current + 1 ≤ r1.source.length; omega)
    have hat2' : lineAt sc.source (digitsLoop (fuelOf { r1 with current := r1.current + 1 })
        { r1 with current := r1.current + 1 }).current = lineAt sc.source (r1.current + 1) := by
      rw [← hs1]
      exact hat2
    have hdot' : sc.source.getD r1.current nul = '.' := by
      rw [← hs1]
      exact hdot
    refine ⟨hs2.trans hs1, hst2.trans hst1, ?_, ?_, hl2.trans hl1, rfl, ?_⟩
    · show sc.current ≤ (digitsLoop (fuelOf { r1 with current := r1.current + 1 })
        { r1 with current := r1.current + 1 }).current
      omega
    · show (digitsLoop (fuelOf { r1 with current := r1.current + 1 })
        { r1 with current := r1.current + 1 }).current ≤ sc.source.length
      omega
    · show lineAt sc.source (digitsLoop (fuelOf { r1 with current := r1.current + 1 })
        { r1 with current := r1.current + 1 }).current = lineAt sc.source sc.current
      rw [hat2', lineAt_succ, hdot', if_neg (by decide), Nat.add_zero]
      exact hat1
  · split
    · rename_i hcond2
      have hn : charAt r1 r1.current = 'n' := by
        rw [← peek_eq_charAt]
        exact beq_iff_eq.mp hcond2
      have hlt1 : r1.current < sc.source.length := by
        have hne : charAt r1 r1.current ≠ nul := by rw [hn]; decide
        have hx := charAt_lt_of_ne_nul hne
        rwa [hs1] at hx
      have hn' : sc.source.getD r1.current nul = 'n' := by
        rw [← hs1]
        exact hn
      refine ⟨hs1, hst1, by show sc.current ≤ r1.current + 1; omega,
        by show r1.current + 1 ≤ sc.source.length; omega, hl1, rfl, ?_⟩
      show lineAt sc.source (r1.current + 1) = lineAt sc.source sc.current
      rw [lineAt_succ, hn', if_neg (by decide), Nat.add_zero]
      exact hat1
    · exact ⟨hs1, hst1, hm1, hle1', hl1, rfl, hat1⟩

theorem string_inv (sc : Scanner) (h : sc.current ≤ sc.source.length) :
    (string sc).1.source = sc.source ∧
    (string sc).1.start = sc.start ∧
    sc.current ≤ (string sc).1.current ∧
    (string sc).1.current ≤ sc.source.length ∧
    (string sc).2.line = (string sc).1.line ∧
    (sc.line = lineAt sc.source sc.current →
      (string sc).1.line = lineAt sc.source (string sc).1.current) ∧
    ((string sc).2.type = TokenType.STRING ∨
      (string sc).2.type = TokenType.ERROR) := by
  obtain ⟨hs1, hst1, hm1, hle1⟩ := stringLoop_inv (fuelOf sc) sc
  have hstop := stringLoop_stop (fuelOf sc) sc h (Nat.le_refl _)
  have hle1' := hle1 h
  simp only [string]
  set r := stringLoop (fuelOf sc) sc with hr
  split
  · exact ⟨hs1, hst1, hm1, hle1', rfl,
      fun hinv => stringLoop_lineAt (fuelOf sc) sc hinv, Or.inr rfl⟩
  · rename_i hend
    have hq : charAt r r.current = '"' := by
      rcases hstop with hp | he
      · rw [← peek_eq_charAt]
        exact hp
      · exact absurd he hend
    have hlt : r.current < sc.source.length := by
      have hne : charAt r r.current ≠ nul := by rw [hq]; decide
      have hx := charAt_lt_of_ne_nul hne
      rwa [hs1] at hx
    refine ⟨hs1, hst1, by show sc.current ≤ r.current + 1; omega,
      by show r.current + 1 ≤ sc.source.length; omega, rfl, fun hinv => ?_, Or.inl rfl⟩
    show r.line = lineAt sc.source (r.current + 1)
    have hrl := stringLoop_lineAt (fuelOf sc) sc hinv
    rw [hrl]
    have hq' : sc.source.getD r.current nul = '"' := by
      rw [← hs1]
      exact hq
    rw [lineAt_succ, hq', if_neg (by decide), Nat.add_zero]

theorem matchChar_case (s1 : Scanner) (e : Char) (m1 : Scanner) (mb : Bool)
    (hmc : matchChar s1 e = (m1, mb)) (he : e ≠ '\n') :
    m1.source = s1.source ∧ m1.start = s1.start ∧ s1.current ≤ m1.current ∧
    (s1.current ≤ s1.source.length → m1.current ≤ s1.source.length) ∧
    m1.line = s1.line ∧
    lineAt s1.source m1.current = lineAt s1.source s1.current := by
  obtain ⟨a1, a2, a3, a4, a5⟩ := matchChar_inv s1 e
  have a6 := matchChar_lineAt_pos s1 e he
  rw [hmc] at a1 a2 a3 a4 a5 a6
  exact ⟨a1, a2, a3, a4, a5, a6⟩

theorem scanInv_after_match (sc w m1 : Scanner) (t : Token)
    (hws : w.source = sc.source)
    (hwm : sc.current ≤ w.current)
    (hwnl : charAt w w.current ≠ '\n')
    (hwline : sc.line = lineAt sc.source sc.current →
      w.line = lineAt sc.source w.current)
    (hms : m1.source = sc.source)
    (hmst : m1.start = w.current)
    (hmm : w.current + 1 ≤ m1.current)
    (hmle : m1.current ≤ sc.source.length)
    (hml : m1.line = w.line)
    (hmpos : lineAt sc.source m1.current = lineAt sc.source (w.current + 1))
    (htl : t.line = m1.line) :
    ScanInv sc (m1, t) := by
  have hnl' : sc.source.getD w.current nul ≠ '\n' := by
    rw [← hws]
    exact hwnl
  have hstep : lineAt sc.source (w.current + 1) = lineAt sc.source w.current := by
    rw [lineAt_succ, if_neg hnl', Nat.add_zero]
  refine ⟨hms, by show sc.current ≤ m1.current; omega, hmle,
    by show sc.current ≤ m1.start; omega, by show m1.start ≤ m1.current; omega,
    fun _ => by show sc.current < m1.current; omega, htl, ?_, ?_⟩
  · intro hinv
    show m1.line = lineAt sc.source m1.current
    rw [hml, hmpos, hstep]
    exact hwline hinv
  · intro _ _
    show lineAt sc.source m1.start = lineAt sc.source m1.current
    rw [hmst, hmpos, hstep]

theorem scanTokenF_inv (fuel : Nat) : ∀ (sc : Scanner), sc.current ≤ sc.source.length →
    ScanInv sc (scanTokenF fuel sc) := by
  induction fuel with
  | zero =>
    intro sc h
    exact ⟨rfl, Nat.le_refl _, h, Nat.le_refl _, Nat.le_refl _, fun ht => absurd rfl ht,
      rfl, fun hinv => hinv, fun _ _ => rfl⟩
  | succ n ih =>
    intro sc h
    generalize hgen : scanTokenF (n + 1) sc = p
    have hws : (skipWs (fuelOf sc) sc).source = sc.source := skipWs_source _ _
    have hwm : sc.current ≤ (skipWs (fuelOf sc) sc).current := skipWs_mono _ _
    have hwle : (skipWs (fuelOf sc) sc).current ≤ sc.source.length := skipWs_le _ _ h
    obtain ⟨hn1, hn2, hn3, hn4⟩ := skipWs_stop (fuelOf sc) sc h (Nat.le_refl _)
    have hwline : sc.line = lineAt sc.source sc.current →
        (skipWs (fuelOf sc) sc).line = lineAt sc.source (skipWs (fuelOf sc) sc).current :=
      fun hinv => skipWs_lineAt _ _ hinv
    set w := skipWs (fuelOf sc) sc with hwdef
    have hwlen : w.source.length = sc.source.length := by rw [hws]
    have hunf : scanTokenF (n + 1) sc =
        (if isAtEnd { w with start := w.current } then
            ({ w with start := w.current },
              makeToken { w with start := w.current } TokenType.EOF)
          else if charAt w w.current = '(' then
            ({ w with start := w.current, current := w.current + 1 },
              makeToken { w with start := w.current, current := w.current + 1 }
                TokenType.LEFT_PAREN)
          else if charAt w w.current = ')' then
            ({ w with start := w.current, current := w.current + 1 },
              makeToken { w with start := w.current, current := w.current + 1 }
                TokenType.RIGHT_PAREN)
          else if charAt w w.current = '\x7b' then
            ({ w with start := w.current, current := w.current + 1 },
              makeToken { w with start := w.current, current := w.current + 1 }
                TokenType.LEFT_BRACE)
          else if charAt w w.current = '\x7d' then
            ({ w with start := w.current, current := w.current + 1 },
              makeToken { w with start := w.current, current := w.current + 1 }
                TokenType.RIGHT_BRACE)
          else if charAt w w.current = ';' then
            ({ w with start := w.current, current := w.current + 1 },
              makeToken { w with start := w.current, current := w.current + 1 }
                TokenType.SEMICOLON)
          else if charAt w w.current = ',' then
            ({ w with start := w.current, current := w.current + 1 },
              makeToken { w with start := w.current, current := w.current + 1 }
                TokenType.COMMA)
          else if charAt w w.current = '.' then
            ({ w with start := w.current, current := w.current + 1 },
              makeToken { w with start := w.current, current := w.current + 1 }
                TokenType.DOT)
          else if charAt w w.current = '-' then
            ({ w with start := w.current, current := w.current + 1 },
              makeToken { w with start := w.current, current := w.current + 1 }
                TokenType.MINUS)
          else if charAt w w.current = '+' then
            ({ w with start := w.current, current := w.current + 1 },
              makeToken { w with start := w.current, current := w.current + 1 }
                TokenType.PLUS)
          else if charAt w w.current = '*' then
            ({ w with start := w.current, current := w.current + 1 },
              makeToken { w with start := w.current, current := w.current + 1 }
                TokenType.STAR)
          else if charAt w w.current = '"' then
            string { w with start := w.current, current := w.current + 1 }
          else if charAt w w.current = '/' then
            match matchChar { w with start := w.current, current := w.current + 1 } '/' with
            | (sc, true) => scanTokenF n (commentBody (fuelOf sc) sc)
            | (sc, false) => (sc, makeToken sc TokenType.SLASH)
          else if charAt w w.current = '!' then
            match matchChar { w with start := w.current, current := w.current + 1 } '=' with
            | (sc, m) => (sc, makeToken sc (if m then TokenType.BANG_EQUAL else TokenType.BANG))
          else if charAt w w.current = '=' then
            match matchChar { w with start := w.current, current := w.current + 1 } '=' with
            | (sc, m) => (sc, makeToken sc (if m then TokenType.EQUAL_EQUAL else TokenType.EQUAL))
          else if charAt w w.current = '<' then
            match matchChar { w with start := w.current, current := w.current + 1 } '=' with
            | (sc, m) => (sc, makeToken sc (if m then TokenType.LESS_EQUAL else TokenType.LESS))
          else if charAt w w.current = '>' then
            match matchChar { w with start := w.current, current := w.current + 1 } '=' with
            | (sc, m) => (sc, makeToken sc (if m then TokenType.GREATER_EQUAL else TokenType.GREATER))
          else if isDigit (charAt w w.current) then
            number { w with start := w.current, current := w.current + 1 }
          else if isAlpha (charAt w w.current) then
            identifier { w with start := w.current, current := w.current + 1 }
          else
            ({ w with start := w.current, current := w.current + 1 },
              errorToken { w with start := w.current, current := w.current + 1 }
                (String.toList "Unexpected character.")
            )) := rfl
    rw [hunf] at hgen
    by_cases hend0 : isAtEnd { w with start := w.current } = true
    · rw [if_pos hend0] at hgen
      subst hgen
      exact ⟨hws, hwm, hwle, hwm, Nat.le_refl _, fun ht => absurd rfl ht, rfl,
        fun hinv => hwline hinv, fun _ _ => rfl⟩
    · rw [if_neg hend0] at hgen
      have hlt : w.current < sc.source.length := by
        have hx : w.current < w.source.length :=
          not_atEnd_lt (Bool.not_eq_true _ |>.mp hend0)
        omega
      have hnl' : sc.source.getD w.current nul ≠ '\n' := by
        rw [← hws]
        exact hn4
      have hstep : lineAt sc.source (w.current + 1) = lineAt sc.source w.current := by
        rw [lineAt_succ, if_neg hnl', Nat.add_zero]
      by_cases hc1 : charAt w w.current = '('
      · rw [if_pos hc1] at hgen
        subst hgen
        exact scanInv_after_match sc w _ _ hws hwm hn4 hwline hws rfl (Nat.le_refl _) hlt rfl rfl rfl
      · rw [if_neg hc1] at hgen
        by_cases hc2 : charAt w w.current = ')'
        · rw [if_pos hc2] at hgen
          subst hgen
          exact scanInv_after_match sc w _ _ hws hwm hn4 hwline hws rfl (Nat.le_refl _) hlt rfl rfl rfl
        · rw [if_neg hc2] at hgen
          by_cases hc3 : charAt w w.current = '\x7b'
          · rw [if_pos hc3] at hgen
            subst hgen
            exact scanInv_after_match sc w _ _ hws hwm hn4 hwline hws rfl (Nat.le_refl _) hlt rfl rfl rfl
          · rw [if_neg hc3] at hgen
            by_cases hc4 : charAt w w.current = '\x7d'
            · rw [if_pos hc4] at hgen
              subst hgen
              exact scanInv_after_match sc w _ _ hws hwm hn4 hwline hws rfl (Nat.le_refl _) hlt rfl rfl rfl
            · rw [if_neg hc4] at hgen
              by_cases hc5 : charAt w w.current = ';'
              · rw [if_pos hc5] at hgen
                subst hgen
                exact scanInv_after_match sc w _ _ hws hwm hn4 hwline hws rfl (Nat.le_refl _) hlt rfl rfl rfl
              · rw [if_neg hc5] at hgen
                by_cases hc6 : charAt w w.current = ','
                · rw [if_pos hc6] at hgen
                  subst hgen
                  exact scanInv_after_match sc w _ _ hws hwm hn4 hwline hws rfl (Nat.le_refl _) hlt rfl rfl rfl
                · rw [if_neg hc6] at hgen
                  by_cases hc7 : charAt w w.current = '.'
                  · rw [if_pos hc7] at hgen
                    subst hgen
                    exact scanInv_after_match sc w _ _ hws hwm hn4 hwline hws rfl (Nat.le_refl _) hlt rfl rfl rfl
                  · rw [if_neg hc7] at hgen
                    by_cases hc8 : charAt w w.current = '-'
                    · rw [if_pos hc8] at hgen
                      subst hgen
                      exact scanInv_after_match sc w _ _ hws hwm hn4 hwline hws rfl (Nat.le_refl _) hlt rfl rfl rfl
                    · rw [if_neg hc8] at hgen
                      by_cases hc9 : charAt w w.current = '+'
                      · rw [if_pos hc9] at hgen
                        subst hgen
                        exact scanInv_after_match sc w _ _ hws hwm hn4 hwline hws rfl (Nat.le_refl _) hlt rfl rfl rfl
                      · rw [if_neg hc9] at hgen
                        by_cases hc10 : charAt w w.current = '*'
                        · rw [if_pos hc10] at hgen
                          subst hgen
                          exact scanInv_after_match sc w _ _ hws hwm hn4 hwline hws rfl (Nat.le_refl _) hlt rfl rfl rfl
                        · rw [if_neg hc10] at hgen
                          by_cases hc11 : charAt w w.current = '"'
                          · rw [if_pos hc11] at hgen
                            subst hgen
                            obtain ⟨ss1, ss2, ss3, ss4, ss5, ss6, ss7⟩ :=
                              string_inv { w with start := w.current, current := w.current + 1 }
                                (by show w.current + 1 ≤ w.source.length; omega)
                            have ss2' : (string { w with start := w.current, current := w.current + 1 }).1.start = w.current := ss2
                            have ss3' : w.current + 1 ≤ (string { w with start := w.current, current := w.current + 1 }).1.current := ss3
                            have ss4' : (string { w with start := w.current, current := w.current + 1 }).1.current ≤ w.source.length := ss4
                            refine ⟨ss1.trans hws, ?_, ?_, ?_, ?_, ?_, ss5, ?_, ?_⟩
                            · show sc.current ≤ (string { w with start := w.current, current := w.current + 1 }).1.current
                              omega
                            · show (string { w with start := w.current, current := w.current + 1 }).1.current ≤ sc.source.length
                              omega
                            · show sc.current ≤ (string { w with start := w.current, current := w.current + 1 }).1.start
                              omega
                            · show (string { w with start := w.current, current := w.current + 1 }).1.start ≤ (string { w with start := w.current, current := w.current + 1 }).1.current
                              omega
                            · intro _
                              show sc.current < (string { w with start := w.current, current := w.current + 1 }).1.current
                              omega
                            · intro hinv
                              have hinv1 : ({ w with start := w.current, current := w.current + 1 } : Scanner).line
                                  = lineAt ({ w with start := w.current, current := w.current + 1 } : Scanner).source ({ w with start := w.current, current := w.current + 1 } : Scanner).current := by
                                show w.line = lineAt w.source (w.current + 1)
                                rw [hws, hstep]
                                exact hwline hinv
                              have hfin := ss6 hinv1
                              show (string { w with start := w.current, current := w.current + 1 }).1.line = lineAt sc.source (string { w with start := w.current, current := w.current + 1 }).1.current
                              rw [← hws]
                              exact hfin
                            · intro h1 h2
                              rcases ss7 with hA | hB
                              · exact absurd hA h1
                              · exact absurd hB h2
                          · rw [if_neg hc11] at hgen
                            by_cases hc12 : charAt w w.current = '/'
                            · rw [if_pos hc12] at hgen
                              rcases hmc : matchChar { w with start := w.current, current := w.current + 1 } '/' with ⟨m1, mb⟩
                              rw [hmc] at hgen
                              obtain ⟨q1, q2, q3, q4, q5, q6⟩ := matchChar_case _ '/' m1 mb hmc (by decide)
                              have q1' : m1.source = sc.source := q1.trans hws
                              have q2' : m1.start = w.current := q2
                              have q3' : w.current + 1 ≤ m1.current := q3
                              have q4' : m1.current ≤ w.source.length :=
                                q4 (by show w.current + 1 ≤ w.source.length; omega)
                              have q5' : m1.line = w.line := q5
                              have q6' : lineAt sc.source m1.current = lineAt sc.source (w.current + 1) := by
                                rw [← hws]
                                exact q6
                              cases mb
                              · dsimp only at hgen
                                subst hgen
                                have hmle2 : m1.current ≤ sc.source.length := by omega
                                exact scanInv_after_match sc w m1 _ hws hwm hn4 hwline q1' q2' q3' hmle2 q5' q6' rfl
                              · dsimp only at hgen
                                subst hgen
                                obtain ⟨c1, c2, c3, c4⟩ := commentBody_inv (fuelOf m1) m1
                                obtain ⟨c5, c6⟩ := commentBody_lineAt (fuelOf m1) m1
                                have hm1len : m1.source.length = sc.source.length := by rw [q1']
                                have c4' : (commentBody (fuelOf m1) m1).current ≤ m1.source.length := c4 (by omega)
                                have hcbwf : (commentBody (fuelOf m1) m1).current ≤ (commentBody (fuelOf m1) m1).source.length := by
                                  rw [c1]
                                  exact c4'
                                obtain ⟨j1, j2, j3, j4, j5, j6, j7, j8, j9⟩ := ih (commentBody (fuelOf m1) m1) hcbwf
                                have hcbs : (commentBody (fuelOf m1) m1).source = sc.source := c1.trans q1'
                                have hcblen : (commentBody (fuelOf m1) m1).source.length = sc.source.length := by rw [hcbs]
                                refine ⟨j1.trans hcbs, ?_, ?_, ?_, j5, ?_, j7, ?_, ?_⟩
                                · omega
                                · omega
                                · omega
                                · intro _
                                  omega
                                · intro hinv
                                  have hm1line : m1.line = lineAt sc.source m1.current := by
                                    rw [q5', q6', hstep]
                                    exact hwline hinv
                                  have hcbline : (commentBody (fuelOf m1) m1).line = lineAt (commentBody (fuelOf m1) m1).source (commentBody (fuelOf m1) m1).current := by
                                    rw [c5, hcbs]
                                    have c6' : lineAt sc.source (commentBody (fuelOf m1) m1).current = lineAt sc.source m1.current := by
                                      rw [← q1']
                                      exact c6
                                    rw [c6']
                                    exact hm1line
                                  have hfin := j8 hcbline
                                  rw [hcbs] at hfin
                                  exact hfin
                                · intro h1 h2
                                  have hfin := j9 h1 h2
                                  rw [hcbs] at hfin
                                  exact hfin
                            · rw [if_neg hc12] at hgen
                              by_cases hc13 : charAt w w.current = '!'
                              · rw [if_pos hc13] at hgen
                                rcases hmc : matchChar { w with start := w.current, current := w.current + 1 } '=' with ⟨m1, mb⟩
                                rw [hmc] at hgen
                                dsimp only at hgen
                                subst hgen
                                obtain ⟨q1, q2, q3, q4, q5, q6⟩ := matchChar_case _ '=' m1 mb hmc (by decide)
                                have hmle2 : m1.current ≤ sc.source.length := by
                                  have hq : m1.current ≤ w.source.length :=
                                    q4 (by show w.current + 1 ≤ w.source.length; omega)
                                  omega
                                exact scanInv_after_match sc w m1 _ hws hwm hn4 hwline (q1.trans hws) q2 q3 hmle2 q5
                                  (by rw [← hws]; exact q6) rfl
                              · rw [if_neg hc13] at hgen
                                by_cases hc14 : charAt w w.current = '='
                                · rw [if_pos hc14] at hgen
                                  rcases hmc : matchChar { w with start := w.current, current := w.current + 1 } '=' with ⟨m1, mb⟩
                                  rw [hmc] at hgen
                                  dsimp only at hgen
                                  subst hgen
                                  obtain ⟨q1, q2, q3, q4, q5, q6⟩ := matchChar_case _ '=' m1 mb hmc (by decide)
                                  have hmle2 : m1.current ≤ sc.source.length := by
                                    have hq : m1.current ≤ w.source.length :=
                                      q4 (by show w.current + 1 ≤ w.source.length; omega)
                                    omega
                                  exact scanInv_after_match sc w m1 _ hws hwm hn4 hwline (q1.trans hws) q2 q3 hmle2 q5
                                    (by rw [← hws]; exact q6) rfl
                                · rw [if_neg hc14] at hgen
                                  by_cases hc15 : charAt w w.current = '<'
                                  · rw [if_pos hc15] at hgen
                                    rcases hmc : matchChar { w with start := w.current, current := w.current + 1 } '=' with ⟨m1, mb⟩
                                    rw [hmc] at hgen
                                    dsimp only at hgen
                                    subst hgen
                                    obtain ⟨q1, q2, q3, q4, q5, q6⟩ := matchChar_case _ '=' m1 mb hmc (by decide)
                                    have hmle2 : m1.current ≤ sc.source.length := by
                                      have hq : m1.current ≤ w.source.length :=
                                        q4 (by show w.current + 1 ≤ w.source.length; omega)
                                      omega
                                    exact scanInv_after_match sc w m1 _ hws hwm hn4 hwline (q1.trans hws) q2 q3 hmle2 q5
                                      (by rw [← hws]; exact q6) rfl
                                  · rw [if_neg hc15] at hgen
                                    by_cases hc16 : charAt w w.current = '>'
                                    · rw [if_pos hc16] at hgen
                                      rcases hmc : matchChar { w with start := w.current, current := w.current + 1 } '=' with ⟨m1, mb⟩
                                      rw [hmc] at hgen
                                      dsimp only at hgen
                                      subst hgen
                                      obtain ⟨q1, q2, q3, q4, q5, q6⟩ := matchChar_case _ '=' m1 mb hmc (by decide)
                                      have hmle2 : m1.current ≤ sc.source.length := by
                                        have hq : m1.current ≤ w.source.length :=
                                          q4 (by show w.current + 1 ≤ w.source.length; omega)
                                        omega
                                      exact scanInv_after_match sc w m1 _ hws hwm hn4 hwline (q1.trans hws) q2 q3 hmle2 q5
                                        (by rw [← hws]; exact q6) rfl
                                    · rw [if_neg hc16] at hgen
                                      by_cases hc17 : isDigit (charAt w w.current) = true
                                      · rw [if_pos hc17] at hgen
                                        subst hgen
                                        obtain ⟨n1, n2, n3, n4, n5, n6, n7⟩ :=
                                          number_inv { w with start := w.current, current := w.current + 1 }
                                            (by show w.current + 1 ≤ w.source.length; omega)
                                        have n2' : (number { w with start := w.current, current := w.current + 1 }).1.start = w.current := n2
                                        have n3' : w.current + 1 ≤ (number { w with start := w.current, current := w.current + 1 }).1.current := n3
                                        have n4' : (number { w with start := w.current, current := w.current + 1 }).1.current ≤ w.source.length := n4
                                        have n5' : (number { w with start := w.current, current := w.current + 1 }).1.line = w.line := n5
                                        have n7' : lineAt sc.source (number { w with start := w.current, current := w.current + 1 }).1.current = lineAt sc.source (w.current + 1) := by
                                          rw [← hws]
                                          exact n7
                                        refine ⟨n1.trans hws, ?_, ?_, ?_, ?_, ?_, n6, ?_, ?_⟩
                                        · show sc.current ≤ (number { w with start := w.current, current := w.current + 1 }).1.current
                                          omega
                                        · show (number { w with start := w.current, current := w.current + 1 }).1.current ≤ sc.source.length
                                          omega
                                        · show sc.current ≤ (number { w with start := w.current, current := w.current + 1 }).1.start
                                          omega
                                        · show (number { w with start := w.current, current := w.current + 1 }).1.start ≤ (number { w with start := w.current, current := w.current + 1 }).1.current
                                          omega
                                        · intro _
                                          show sc.current < (number { w with start := w.current, current := w.current + 1 }).1.current
                                          omega
                                        · intro hinv
                                          show (number { w with start := w.current, current := w.current + 1 }).1.line = lineAt sc.source (number { w with start := w.current, current := w.current + 1 }).1.current
                                          rw [n5', n7', hstep]
                                          exact hwline hinv
                                        · intro _ _
                                          show lineAt sc.source (number { w with start := w.current, current := w.current + 1 }).1.start = lineAt sc.source (number { w with start := w.current, current := w.current + 1 }).1.current
                                          rw [n2', n7', hstep]
                                      · rw [if_neg hc17] at hgen
                                        by_cases hc18 : isAlpha (charAt w w.current) = true
                                        · rw [if_pos hc18] at hgen
                                          subst hgen
                                          obtain ⟨i1, i2, i3, i4, i5, i6, i7⟩ := identifier_inv { w with start := w.current, current := w.current + 1 }
                                          have i2' : (identifier { w with start := w.current, current := w.current + 1 }).1.start = w.current := i2
                                          have i3' : w.current + 1 ≤ (identifier { w with start := w.current, current := w.current + 1 }).1.current := i3
                                          have i4' : (identifier { w with start := w.current, current := w.current + 1 }).1.current ≤ w.source.length :=
                                            i4 (by show w.current + 1 ≤ w.source.length; omega)
                                          have i5' : (identifier { w with start := w.current, current := w.current + 1 }).1.line = w.line := i5
                                          have i7' : lineAt sc.source (identifier { w with start := w.current, current := w.current + 1 }).1.current
                                              = lineAt sc.source (w.current + 1) := by
                                            rw [← hws]
                                            exact i7
                                          refine ⟨i1.trans hws, ?_, ?_, ?_, ?_, ?_, i6, ?_, ?_⟩
                                          · show sc.current ≤ (identifier { w with start := w.current, current := w.current + 1 }).1.current
                                            omega
                                          · show (identifier { w with start := w.current, current := w.current + 1 }).1.current ≤ sc.source.length
                                            omega
                                          · show sc.current ≤ (identifier { w with start := w.current, current := w.current + 1 }).1.start
                                            omega
                                          · show (identifier { w with start := w.current, current := w.current + 1 }).1.start ≤ (identifier { w with start := w.current, current := w.current + 1 }).1.current
                                            omega
                                          · intro _
                                            show sc.current < (identifier { w with start := w.current, current := w.current + 1 }).1.current
                                            omega
                                          · intro hinv
                                            show (identifier { w with start := w.current, current := w.current + 1 }).1.line = lineAt sc.source (identifier { w with start := w.current, current := w.current + 1 }).1.current
                                            rw [i5', i7', hstep]
                                            exact hwline hinv
                                          · intro _ _
                                            show lineAt sc.source (identifier { w with start := w.current, current := w.current + 1 }).1.start
                                              = lineAt sc.source (identifier { w with start := w.current, current := w.current + 1 }).1.current
                                            rw [i2', i7', hstep]
                                        · rw [if_neg hc18] at hgen
                                          subst hgen
                                          exact scanInv_after_match sc w _ _ hws hwm hn4 hwline hws rfl (Nat.le_refl _) hlt rfl rfl rfl

theorem scanToken_inv (sc : Scanner) (h : sc.current ≤ sc.source.length) :
    ScanInv sc (scanToken sc) :=
  scanTokenF_inv (fuelOf sc) sc h

theorem nthState_shift (sc : Scanner) (n : Nat) :
    nthState sc (n + 1) = nthState (scanToken sc).1 n := by
  induction n with
  | zero => rfl
  | succ m ih =>
    show (scanToken (nthState sc (m + 1))).1 = (scanToken (nthState (scanToken sc).1 m)).1
    rw [ih]

theorem eof_reached (m : Nat) : ∀ (sc : Scanner), sc.current ≤ sc.source.length →
    sc.source.length - sc.current ≤ m →
    ∃ k, k ≤ sc.source.length - sc.current ∧
      (nthToken sc k).type = TokenType.EOF := by
  induction m with
  | zero =>
    intro sc h hm
    have hend : charAt sc sc.current = nul := charAt_of_le_length (by omega)
    refine ⟨0, Nat.zero_le _, ?_⟩
    show (scanToken (nthState sc 0)).2.type = TokenType.EOF
    rw [show nthState sc 0 = sc from rfl, scanToken_atEnd sc hend]
  | succ m ih =>
    intro sc h hm
    by_cases htype : (scanToken sc).2.type = TokenType.EOF
    · exact ⟨0, Nat.zero_le _, htype⟩
    · obtain ⟨g1, g2, g3, g4, g5, g6, g7, g8, g9⟩ := scanToken_inv sc h
      have hprog : sc.current < (scanToken sc).1.current := g6 htype
      have hsl : (scanToken sc).1.source.length = sc.source.length := by rw [g1]
      have hle' : (scanToken sc).1.current ≤ (scanToken sc).1.source.length := by
        rw [hsl]
        exact g3
      obtain ⟨k, hk, hke⟩ := ih (scanToken sc).1 hle' (by rw [hsl]; omega)
      rw [hsl] at hk
      refine ⟨k + 1, by omega, ?_⟩
      show (scanToken (nthState sc (k + 1))).2.type = TokenType.EOF
      rw [nthState_shift]
      exact hke

/-- C1: totality and termination of scanning.  For every finite
null-terminated source buffer (`src.length + 1` bytes including the
terminator), repeated calls to `scanToken` after `initScanner` reach the
end-of-source token within that many calls: the `(k+1)`-st call returns a
`TOKEN_EOF` token for some `k + 1 ≤ src.length + 1`.  `scanToken` is a
total Lean function, so no single call diverges, and every input byte
sequence yields a well-formed token for each call. -/
theorem scanner_totality (src : List Char) :
    ∃ k, k + 1 ≤ src.length + 1 ∧
      (nthToken (initScanner (some src)) k).type = TokenType.EOF := by
  have h0 : (initScanner (some src)).current ≤ (initScanner (some src)).source.length :=
    Nat.zero_le _
  obtain ⟨k, hk, hke⟩ := eof_reached ((initScanner (some src)).source.length)
    (initScanner (some src)) h0 (Nat.le_refl _)
  refine ⟨k, ?_, hke⟩
  have hk' : k ≤ src.length - 0 := hk
  omega

/-- C9: scanning at the terminator is idempotent.  When `current` rests
on the NUL sentinel, `scanToken` returns an end-of-source token with an
empty lexeme at the current line, moves neither `current` nor `line`, and
calling `scanToken` again produces the identical result. -/
theorem scanToken_at_terminator (sc : Scanner) (h : charAt sc sc.current = nul) :
    (scanToken sc).2 = { type := TokenType.EOF, lexeme := [], line := sc.line } ∧
    (scanToken sc).1.current = sc.current ∧
    (scanToken sc).1.line = sc.line ∧
    scanToken (scanToken sc).1 = scanToken sc := by
  have he := scanToken_atEnd sc h
  refine ⟨by rw [he], by rw [he], by rw [he], ?_⟩
  rw [he]
  have h2 : charAt { sc with start := sc.current }
      ({ sc with start := sc.current }).current = nul := h
  rw [scanToken_atEnd _ h2]

/-- Witness for C9 at a concrete end-of-buffer state. -/
theorem scanToken_at_terminator_witness :
    charAt { source := String.toList "ab", start := 0, current := 2, line := 5 } 2 = nul ∧
    ((scanToken { source := String.toList "ab", start := 0, current := 2, line := 5 }).2 =
        { type := TokenType.EOF, lexeme := [], line := 5 } ∧
      (scanToken { source := String.toList "ab", start := 0, current := 2, line := 5 }).1.current = 2 ∧
      (scanToken { source := String.toList "ab", start := 0, current := 2, line := 5 }).1.line = 5 ∧
      scanToken (scanToken { source := String.toList "ab", start := 0, current := 2, line := 5 }).1 =
        scanToken { source := String.toList "ab", start := 0, current := 2, line := 5 }) :=
  ⟨by decide,
    scanToken_at_terminator
      { source := String.toList "ab", start := 0, current := 2, line := 5 } (by decide)⟩

theorem stringLoop_run (fuel : Nat) : ∀ (sc : Scanner), sc.current ≤ sc.source.length →
    nul ∉ sc.source → (∀ x ∈ sc.source.drop sc.current, x ≠ '"') →
    sc.source.length - sc.current ≤ fuel →
    (stringLoop fuel sc).current = sc.source.length := by
  induction fuel with
  | zero =>
    intro sc h _ _ hf
    show sc.current = sc.source.length
    omega
  | succ n ih =>
    intro sc h hn hq hf
    by_cases hcur : sc.current < sc.source.length
    · have hch : charAt sc sc.current = sc.source[sc.current] :=
        List.getD_eq_getElem _ _ hcur
      have hne : charAt sc sc.current ≠ nul := by
        rw [hch]
        intro hx
        exact hn (hx ▸ List.getElem_mem hcur)
      have hnq : charAt sc sc.current ≠ '"' := by
        rw [hch]
        refine hq _ ?_
        rw [List.drop_eq_getElem_cons hcur]
        exact List.mem_cons_self _ _
      have hcond : (peek sc != '"' && !(isAtEnd sc)) = true := by
        rw [peek_eq_charAt]
        simp [isAtEnd, hnq, hne]
      simp only [stringLoop, hcond, if_true]
      have hdropq : ∀ x ∈ sc.source.drop (sc.current + 1), x ≠ '"' := by
        intro x hx
        refine hq x ?_
        rw [List.drop_eq_getElem_cons hcur]
        exact List.mem_cons_of_mem _ hx
      exact ih
        ⟨sc.source, sc.start, sc.current + 1,
          if peek sc == '\n' then sc.line + 1 else sc.line⟩
        (by show sc.current + 1 ≤ sc.source.length; omega) hn hdropq
        (by show sc.source.length - (sc.current + 1) ≤ n; omega)
    · have hcur' : sc.current = sc.source.length := by omega
      have hend : isAtEnd sc = true := by
        simp [isAtEnd, charAt_of_le_length (Nat.le_of_eq hcur'.symm)]
      have hcond : (peek sc != '"' && !(isAtEnd sc)) = false := by
        simp [hend]
      simp only [stringLoop, hcond]
      exact hcur'

/-- C10: after `string` returns the "Unterminated string." error token,
the scanner has consumed the remainder of the buffer (its cursor rests on
the terminator), `line` was incremented once per newline inside the
unclosed literal, the error token carries the line at end-of-source, and
the next `scanToken` call returns an end-of-source token on that same
line. -/
theorem unterminated_string_state (sc : Scanner)
    (h : sc.current ≤ sc.source.length)
    (hnonul : nul ∉ sc.source)
    (hnoq : ∀ x ∈ sc.source.drop sc.current, x ≠ '"') :
    (string sc).2 =
      ⟨TokenType.ERROR, String.toList "Unterminated string.", (string sc).1.line⟩ ∧
    (string sc).1.current = sc.source.length ∧
    (string sc).1.line = sc.line +
      (sc.source.drop sc.current).countP (fun c => c == '\n') ∧
    (scanToken (string sc).1).2 =
      ⟨TokenType.EOF, [], (string sc).1.line⟩ := by
  obtain ⟨hs1, hst1, hm1, hle1⟩ := stringLoop_inv (fuelOf sc) sc
  have hrun : (stringLoop (fuelOf sc) sc).current = sc.source.length :=
    stringLoop_run (fuelOf sc) sc h hnonul hnoq
      (by show sc.source.length - sc.current ≤ sc.source.length + 1 - sc.current; omega)
  have hnul : charAt (stringLoop (fuelOf sc) sc)
      (stringLoop (fuelOf sc) sc).current = nul := by
    apply charAt_of_le_length
    rw [hs1, hrun]
  have hend : isAtEnd (stringLoop (fuelOf sc) sc) = true := by
    simp [isAtEnd, hnul]
  have hstr : string sc = (stringLoop (fuelOf sc) sc,
      errorToken (stringLoop (fuelOf sc) sc) (String.toList "Unterminated string.")) := by
    simp only [string]
    rw [if_pos hend]
  have hcnt : (stringLoop (fuelOf sc) sc).line = sc.line +
      (sc.source.drop sc.current).countP (fun c => c == '\n') := by
    have hle := stringLoop_line_eq (fuelOf sc) sc
    rw [hrun] at hle
    have hsl : slice sc.source sc.current sc.source.length = sc.source.drop sc.current := by
      show (sc.source.drop sc.current).take (sc.source.length - sc.current) =
        sc.source.drop sc.current
      exact List.take_of_length_le (Nat.le_of_eq (List.length_drop _ _))
    rw [hsl] at hle
    exact hle
  refine ⟨?_, ?_, ?_, ?_⟩
  · rw [hstr]
    rfl
  · rw [hstr]
    exact hrun
  · rw [hstr]
    exact hcnt
  · rw [hstr]
    rw [scanToken_atEnd _ hnul]

/-- Witness for C10 on the concrete post-quote state of scanning
`"a<newline>b` (opening quote consumed, no closing quote before
end-of-source). -/
theorem unterminated_string_state_witness :
    (⟨String.toList "\"a\nb", 0, 1, 1⟩ : Scanner).current ≤
        (String.toList "\"a\nb").length ∧
    nul ∉ String.toList "\"a\nb" ∧
    (∀ x ∈ (String.toList "\"a\nb").drop 1, x ≠ '"') ∧
    ((string (⟨String.toList "\"a\nb", 0, 1, 1⟩ : Scanner)).2 =
      ⟨TokenType.ERROR, String.toList "Unterminated string.",
        (string (⟨String.toList "\"a\nb", 0, 1, 1⟩ : Scanner)).1.line⟩ ∧
     (string (⟨String.toList "\"a\nb", 0, 1, 1⟩ : Scanner)).1.current =
        (String.toList "\"a\nb").length ∧
     (string (⟨String.toList "\"a\nb", 0, 1, 1⟩ : Scanner)).1.line = 1 +
        ((String.toList "\"a\nb").drop 1).countP (fun c => c == '\n') ∧
     (scanToken (string (⟨String.toList "\"a\nb", 0, 1, 1⟩ : Scanner)).1).2 =
      ⟨TokenType.EOF, [],
        (string (⟨String.toList "\"a\nb", 0, 1, 1⟩ : Scanner)).1.line⟩) :=
  ⟨by decide, by decide, by decide,
    unterminated_string_state (⟨String.toList "\"a\nb", 0, 1, 1⟩ : Scanner)
      (by decide) (by decide) (by decide)⟩

/-- C4: the string sub-scan, entered with the opening quote just
consumed, either exhausts the buffer and returns exactly the
"Unterminated string." error token (never a partial string token), or
returns a string token whose lexeme carries both the opening and the
closing quote. -/
theorem string_scan_correct (sc : Scanner)
    (hq : charAt sc sc.start = '"')
    (hc : sc.current = sc.start + 1)
    (h : sc.current ≤ sc.source.length) :
    ((string sc).2.type = TokenType.ERROR ∧
      (string sc).2.lexeme = String.toList "Unterminated string.") ∨
    ((string sc).2.type = TokenType.STRING ∧
      ∃ mid, (string sc).2.lexeme = '"' :: (mid ++ ['"'])) := by
  obtain ⟨hs1, hst1, hm1, hle1⟩ := stringLoop_inv (fuelOf sc) sc
  have hstop := stringLoop_stop (fuelOf sc) sc h (Nat.le_refl _)
  simp only [string]
  set r := stringLoop (fuelOf sc) sc with hr
  split
  · exact Or.inl ⟨rfl, rfl⟩
  · rename_i hend
    have hsq : charAt r r.current = '"' := by
      rcases hstop with hp | he
      · rw [← peek_eq_charAt]
        exact hp
      · exact absurd he hend
    have hlt : r.current < sc.source.length := by
      have hne : charAt r r.current ≠ nul := by rw [hsq]; decide
      have hx := charAt_lt_of_ne_nul hne
      rwa [hs1] at hx
    have hstart_lt : sc.start < sc.source.length :=
      charAt_lt_of_ne_nul (by rw [hq]; decide)
    have hm : sc.start + 1 ≤ r.current := by omega
    refine Or.inr ⟨rfl, slice sc.source (sc.start + 1) r.current, ?_⟩
    have hlex : lexemeOf { r with current := r.current + 1 } =
        slice sc.source sc.start (r.current + 1) := by
      show (r.source.drop r.start).take (r.current + 1 - r.start) =
        slice sc.source sc.start (r.current + 1)
      rw [hs1, hst1]
      rfl
    have hsq' : sc.source.getD r.current nul = '"' := by
      rw [← hs1]
      exact hsq
    have hq' : sc.source.getD sc.start nul = '"' := hq
    show lexemeOf { r with current := r.current + 1 } = _
    rw [hlex, slice_snoc sc.source sc.start r.current (by omega) hlt,
      slice_cons sc.source sc.start r.current (by omega) hstart_lt, hq', hsq']
    simp

/-- Witness for C4 on the post-quote state of scanning the complete
string literal `"ok"`. -/
theorem string_scan_correct_witness :
    charAt (⟨String.toList "\"ok\"", 0, 1, 1⟩ : Scanner) 0 = '"' ∧
    (((string (⟨String.toList "\"ok\"", 0, 1, 1⟩ : Scanner)).2.type = TokenType.ERROR ∧
      (string (⟨String.toList "\"ok\"", 0, 1, 1⟩ : Scanner)).2.lexeme =
        String.toList "Unterminated string.") ∨
    ((string (⟨String.toList "\"ok\"", 0, 1, 1⟩ : Scanner)).2.type = TokenType.STRING ∧
      ∃ mid, (string (⟨String.toList "\"ok\"", 0, 1, 1⟩ : Scanner)).2.lexeme =
        '"' :: (mid ++ ['"']))) :=
  ⟨by decide,
    string_scan_correct (⟨String.toList "\"ok\"", 0, 1, 1⟩ : Scanner)
      (by decide) (by decide) (by decide)⟩

/-- C2 counterexample: scanning the multi-line string literal
`"a<newline>b"` from a fresh scanner.  The lexeme's first character (the
opening quote, buffer offset 0) lies on line 1, yet the returned string
token carries `line = 2` — the line of the closing quote — so the claim
that every token's `line` is the line of its lexeme's first character is
false on the code. -/
theorem string_line_counterexample :
    lineAt (String.toList "\"a\nb\"") 0 = 1 ∧
    (scanToken (initScanner (some (String.toList "\"a\nb\"")))).2 =
      { type := TokenType.STRING, lexeme := String.toList "\"a\nb\"", line := 2 } := by
  decide

/-- C2 amended: every token's `line` equals the scanner's line counter
at the moment the token is created (the final counter of that call).
For tokens that are neither string literals nor error tokens this equals
the 1-based source line of the lexeme's first character; a string token
containing newlines instead carries the line its scan ends on (the
closing quote's line), because the interior newlines have already
incremented the counter, and the error token of an unterminated string
carries the line at end-of-source. -/
theorem token_line_attribution (sc : Scanner)
    (h : sc.current ≤ sc.source.length)
    (hline : sc.line = lineAt sc.source sc.current) :
    (scanToken sc).2.line = (scanToken sc).1.line ∧
    (scanToken sc).1.line = lineAt sc.source (scanToken sc).1.current ∧
    ((scanToken sc).2.type ≠ TokenType.STRING →
      (scanToken sc).2.type ≠ TokenType.ERROR →
      (scanToken sc).2.line = lineAt sc.source (scanToken sc).1.start) := by
  obtain ⟨g1, g2, g3, g4, g5, g6, g7, g8, g9⟩ := scanToken_inv sc h
  refine ⟨g7, g8 hline, fun h1 h2 => ?_⟩
  rw [g7, g8 hline, ← g9 h1 h2]

/-- Witness for the amended C2 on the one-character input `x`. -/
theorem token_line_attribution_witness :
    (initScanner (some (String.toList "x"))).current ≤
      (initScanner (some (String.toList "x"))).source.length ∧
    (initScanner (some (String.toList "x"))).line =
      lineAt (initScanner (some (String.toList "x"))).source
        (initScanner (some (String.toList "x"))).current ∧
    (scanToken (initScanner (some (String.toList "x")))).2.line =
      (scanToken (initScanner (some (String.toList "x")))).1.line :=
  ⟨by decide, by decide,
    (token_line_attribution (initScanner (some (String.toList "x")))
      (by decide) (by decide)).1⟩

/-- C3: whitespace/comment transparency.  Scanning `"a"` and
`"  a  // c\n"` yields identical token sequences — the same kinds and
lexemes, including the final end-of-source token — differing only in
line attribution.  (That a consumed comment restarts the whitespace-skip
phase is the comment branch of `scanTokenF`, which loops back into
`skipWs`.) -/
theorem comment_whitespace_transparency :
    (tokenList (initScanner (some (String.toList "a"))) 2).map
        (fun t => (t.type, t.lexeme)) =
      [(TokenType.IDENTIFIER, String.toList "a"), (TokenType.EOF, [])] ∧
    (tokenList (initScanner (some (String.toList "  a  // c\n"))) 2).map
        (fun t => (t.type, t.lexeme)) =
      [(TokenType.IDENTIFIER, String.toList "a"), (TokenType.EOF, [])] := by
  decide

/-- C5: numeric literals.  `"123.45"` scans to exactly one number token
with lexeme `123.45` followed by end-of-source, and `"42n"` scans to
exactly one big-integer token with lexeme `42n` followed by
end-of-source. -/
theorem numeric_literals :
    tokenList (initScanner (some (String.toList "123.45"))) 2 =
      [{ type := TokenType.NUMBER, lexeme := String.toList "123.45", line := 1 },
       { type := TokenType.EOF, lexeme := [], line := 1 }] ∧
    tokenList (initScanner (some (String.toList "42n"))) 2 =
      [{ type := TokenType.BIGINT, lexeme := String.toList "42n", line := 1 },
       { type := TokenType.EOF, lexeme := [], line := 1 }] := by
  decide

/-- C7: a `NULL` (modeled as `none`) or empty source binds the scanner to
the zero-length input with both cursors at offset 0 and line 1, and the
first `scanToken` call immediately returns an end-of-source token with a
zero-length lexeme, leaving the cursor at offset 0 (it never reads past
the terminator: in the model every read goes through `charAt`, which is
total). -/
theorem init_null_or_empty :
    initScanner none = { source := [], start := 0, current := 0, line := 1 } ∧
    initScanner (some []) = { source := [], start := 0, current := 0, line := 1 } ∧
    scanToken { source := [], start := 0, current := 0, line := 1 } =
      ({ source := [], start := 0, current := 0, line := 1 },
       { type := TokenType.EOF, lexeme := [], line := 1 }) := by
  decide

/-- C8: cursor invariant.  A `scanToken` call from a well-formed state
keeps `start ≤ current`, keeps both offsets within `[0, length]` (the
one-past-the-end sentinel position included), never moves `current`
backward, and leaves the buffer untouched; the primitives behave
likewise: `advance` moves `current` forward by one (staying in bounds
when not at the end) and preserves `start`, and `match` moves `current`
forward by at most one within bounds, preserving `start`.  (`peek` and
`peekNext` take the state read-only and cannot move the cursor at
all.) -/
theorem cursor_invariant (sc : Scanner) (e : Char)
    (h0 : sc.start ≤ sc.current) (h1 : sc.current ≤ sc.source.length) :
    (sc.current ≤ (scanToken sc).1.current ∧
      (scanToken sc).1.current ≤ sc.source.length ∧
      (scanToken sc).1.start ≤ (scanToken sc).1.current ∧
      (scanToken sc).1.start ≤ sc.source.length ∧
      (scanToken sc).1.source = sc.source) ∧
    ((advance sc).1.current = sc.current + 1 ∧
      (advance sc).1.start = sc.start ∧
      (isAtEnd sc = false → (advance sc).1.current ≤ sc.source.length)) ∧
    (sc.current ≤ (matchChar sc e).1.current ∧
      (matchChar sc e).1.current ≤ sc.source.length ∧
      (matchChar sc e).1.start = sc.start ∧
      sc.start ≤ (matchChar sc e).1.current) := by
  obtain ⟨g1, g2, g3, g4, g5, g6, g7, g8, g9⟩ := scanToken_inv sc h1
  obtain ⟨m1, m2, m3, m4, m5⟩ := matchChar_inv sc e
  refine ⟨⟨g2, g3, g5, by omega, g1⟩, ⟨rfl, rfl, fun hend => ?_⟩,
    ⟨m3, m4 h1, m2, by omega⟩⟩
  have := not_atEnd_lt hend
  show sc.current + 1 ≤ sc.source.length
  omega

/-- Witness for C8 at a fresh scanner over `ab`. -/
theorem cursor_invariant_witness :
    ((initScanner (some (String.toList "ab"))).start ≤
        (initScanner (some (String.toList "ab"))).current ∧
      (initScanner (some (String.toList "ab"))).current ≤
        (initScanner (some (String.toList "ab"))).source.length) ∧
    (initScanner (some (String.toList "ab"))).current ≤
      (scanToken (initScanner (some (String.toList "ab")))).1.current :=
  ⟨⟨by decide, by decide⟩,
    ((cursor_invariant (initScanner (some (String.toList "ab"))) '='
      (by decide) (by decide)).1).1⟩

theorem isAlpha_ne (c x : Char) (h : isAlpha c = true) (hx : isAlpha x = false) :
    c ≠ x := by
  intro hc
  rw [hc, hx] at h
  cases h

theorem isAlpha_not_isDigit (c : Char) (h : isAlpha c = true) : isDigit c = false := by
  simp only [isAlpha, Bool.or_eq_true, Bool.and_eq_true, decide_eq_true_eq,
    beq_iff_eq] at h
  rcases h with (⟨ha, hb⟩ | ⟨ha, hb⟩) | hc
  · simp only [isDigit, Bool.and_eq_false_iff, decide_eq_false_iff_not]
    right
    omega
  · simp only [isDigit, Bool.and_eq_false_iff, decide_eq_false_iff_not]
    right
    omega
  · subst hc
    decide

theorem identLoop_all (fuel : Nat) : ∀ (sc : Scanner),
    sc.current ≤ sc.source.length →
    (∀ j, sc.current ≤ j → j < sc.source.length →
      isAlphaNumeric (sc.source.getD j nul) = true) →
    sc.source.length - sc.current ≤ fuel →
    identLoop fuel sc = ⟨sc.source, sc.start, sc.source.length, sc.line⟩ := by
  induction fuel with
  | zero =>
    intro sc h hall hf
    have hcur : sc.current = sc.source.length := by omega
    show sc = ⟨sc.source, sc.start, sc.source.length, sc.line⟩
    rw [← hcur]
  | succ n ih =>
    intro sc h hall hf
    by_cases hcur : sc.current < sc.source.length
    · have hcond : isAlphaNumeric (peek sc) = true := by
        rw [peek_eq_charAt]
        exact hall sc.current (Nat.le_refl _) hcur
      simp only [identLoop, hcond, if_true]
      exact ih { sc with current := sc.current + 1 }
        (by show sc.current + 1 ≤ sc.source.length; omega)
        (fun j hj1 hj2 => hall j
          (by have hj1' : sc.current + 1 ≤ j := hj1; omega) hj2)
        (by show sc.source.length - (sc.current + 1) ≤ n; omega)
    · have hcur' : sc.current = sc.source.length := by omega
      have hpk : peek sc = nul := by
        rw [peek_eq_charAt]
        exact charAt_of_le_length (Nat.le_of_eq hcur'.symm)
      have hcond : isAlphaNumeric (peek sc) = false := by
        rw [hpk]
        decide
      simp only [identLoop, hcond]
      show sc = ⟨sc.source, sc.start, sc.source.length, sc.line⟩
      rw [← hcur']

theorem checkKeyword_off1 (c : Char) (cs rest : List Char) (line : Nat) (L : Nat)
    (hL : rest.length = L) (ty : TokenType) :
    checkKeyword ⟨c :: cs, 0, (c :: cs).length, line⟩ ((c :: cs).length - 0) 1 L rest ty =
      if cs = rest then ty else TokenType.IDENTIFIER := by
  subst hL
  unfold checkKeyword
  by_cases h : cs = rest
  · subst h
    rw [if_pos rfl,
      if_pos ⟨by simp only [List.length_cons, Nat.sub_zero]; omega, by simp⟩]
  · have hcond : ¬((c :: cs).length - 0 = 1 + rest.length ∧
        (((⟨c :: cs, 0, (c :: cs).length, line⟩ : Scanner).source.drop
          ((⟨c :: cs, 0, (c :: cs).length, line⟩ : Scanner).start + 1)).take
            rest.length = rest)) := by
      rintro ⟨hl, ht⟩
      apply h
      have hlen : cs.length = rest.length := by
        simp at hl
        omega
      have h2 : cs.take rest.length = cs := List.take_of_length_le (Nat.le_of_eq hlen)
      rw [← h2]
      simpa using ht
    rw [if_neg hcond, if_neg h]

theorem checkKeyword_off2 (c c1 : Char) (cs rest : List Char) (line : Nat) (L : Nat)
    (hL : rest.length = L) (ty : TokenType) :
    checkKeyword ⟨c :: c1 :: cs, 0, (c :: c1 :: cs).length, line⟩
        ((c :: c1 :: cs).length - 0) 2 L rest ty =
      if cs = rest then ty else TokenType.IDENTIFIER := by
  subst hL
  unfold checkKeyword
  by_cases h : cs = rest
  · subst h
    rw [if_pos rfl,
      if_pos ⟨by simp only [List.length_cons, Nat.sub_zero]; omega, by simp⟩]
  · have hcond : ¬((c :: c1 :: cs).length - 0 = 2 + rest.length ∧
        (((⟨c :: c1 :: cs, 0, (c :: c1 :: cs).length, line⟩ : Scanner).source.drop
          ((⟨c :: c1 :: cs, 0, (c :: c1 :: cs).length, line⟩ : Scanner).start + 2)).take
            rest.length = rest)) := by
      rintro ⟨hl, ht⟩
      apply h
      have hlen : cs.length = rest.length := by
        simp at hl
        omega
      have h2 : cs.take rest.length = cs := List.take_of_length_le (Nat.le_of_eq hlen)
      rw [← h2]
      simpa using ht
    rw [if_neg hcond, if_neg h]

theorem identifierType_eq_keywordSpec (c : Char) (cs : List Char) (line : Nat) :
    identifierType ⟨c :: cs, 0, (c :: cs).length, line⟩ = keywordSpec (c :: cs) := by
    by_cases hca : c = 'a'
    · subst hca
      have hL : identifierType ⟨'a' :: cs, 0, ('a' :: cs).length, line⟩ =
          checkKeyword ⟨'a' :: cs, 0, ('a' :: cs).length, line⟩
            (('a' :: cs).length - 0) 1 2 (String.toList "nd") TokenType.AND := by
        simp [identifierType, charAt]
      rw [hL, checkKeyword_off1 'a' cs (String.toList "nd") line 2 rfl]
      by_cases h : cs = String.toList "nd"
      · subst h
        simp [keywordSpec]
      · simp [keywordSpec, h]
    · by_cases hcc : c = 'c'
      · subst hcc
        cases cs with
        | nil =>
          simp [identifierType, keywordSpec, charAt]
        | cons c1 cs' =>
          by_cases hs1 : c1 = 'l'
          · subst hs1
            have hL : identifierType ⟨'c' :: 'l' :: cs', 0, ('c' :: 'l' :: cs').length, line⟩ =
                checkKeyword ⟨'c' :: 'l' :: cs', 0, ('c' :: 'l' :: cs').length, line⟩
                  (('c' :: 'l' :: cs').length - 0) 2 3 (String.toList "ass") TokenType.CLASS := by
              simp [identifierType, charAt]
            rw [hL, checkKeyword_off2 'c' 'l' cs' (String.toList "ass") line 3 rfl]
            by_cases h : cs' = String.toList "ass"
            · subst h
              simp [keywordSpec]
            · simp [keywordSpec, h]
          · by_cases hs2 : c1 = 'o'
            · subst hs2
              have hL : identifierType ⟨'c' :: 'o' :: cs', 0, ('c' :: 'o' :: cs').length, line⟩ =
                  checkKeyword ⟨'c' :: 'o' :: cs', 0, ('c' :: 'o' :: cs').length, line⟩
                    (('c' :: 'o' :: cs').length - 0) 2 3 (String.toList "nst") TokenType.CONST := by
                simp [identifierType, charAt]
              rw [hL, checkKeyword_off2 'c' 'o' cs' (String.toList "nst") line 3 rfl]
              by_cases h : cs' = String.toList "nst"
              · subst h
                simp [keywordSpec]
              · simp [keywordSpec, h]
            · have hL : identifierType ⟨'c' :: c1 :: cs', 0, ('c' :: c1 :: cs').length, line⟩ =
                  TokenType.IDENTIFIER := by
                simp [identifierType, charAt, hs1, hs2]
              rw [hL]
              have hR : keywordSpec ('c' :: c1 :: cs') = TokenType.IDENTIFIER := by
                simp [keywordSpec, hs1, hs2]
              rw [hR]
      · by_cases hce : c = 'e'
        · subst hce
          have hL : identifierType ⟨'e' :: cs, 0, ('e' :: cs).length, line⟩ =
              checkKeyword ⟨'e' :: cs, 0, ('e' :: cs).length, line⟩
                (('e' :: cs).length - 0) 1 3 (String.toList "lse") TokenType.ELSE := by
            simp [identifierType, charAt]
          rw [hL, checkKeyword_off1 'e' cs (String.toList "lse") line 3 rfl]
          by_cases h : cs = String.toList "lse"
          · subst h
            simp [keywordSpec]
          · simp [keywordSpec, h]
        · by_cases hcf : c = 'f'
          · subst hcf
            cases cs with
            | nil =>
              simp [identifierType, keywordSpec, charAt]
            | cons c1 cs' =>
              by_cases hs1 : c1 = 'a'
              · subst hs1
                have hL : identifierType ⟨'f' :: 'a' :: cs', 0, ('f' :: 'a' :: cs').length, line⟩ =
                    checkKeyword ⟨'f' :: 'a' :: cs', 0, ('f' :: 'a' :: cs').length, line⟩
                      (('f' :: 'a' :: cs').length - 0) 2 3 (String.toList "lse") TokenType.FALSE := by
                  simp [identifierType, charAt]
                rw [hL, checkKeyword_off2 'f' 'a' cs' (String.toList "lse") line 3 rfl]
                by_cases h : cs' = String.toList "lse"
                · subst h
                  simp [keywordSpec]
                · simp [keywordSpec, h]
              · by_cases hs2 : c1 = 'o'
                · subst hs2
                  have hL : identifierType ⟨'f' :: 'o' :: cs', 0, ('f' :: 'o' :: cs').length, line⟩ =
                      checkKeyword ⟨'f' :: 'o' :: cs', 0, ('f' :: 'o' :: cs').length, line⟩
                        (('f' :: 'o' :: cs').length - 0) 2 1 (String.toList "r") TokenType.FOR := by
                    simp [identifierType, charAt]
                  rw [hL, checkKeyword_off2 'f' 'o' cs' (String.toList "r") line 1 rfl]
                  by_cases h : cs' = String.toList "r"
                  · subst h
                    simp [keywordSpec]
                  · simp [keywordSpec, h]
                · by_cases hs3 : c1 = 'u'
                  · subst hs3
                    have hL : identifierType ⟨'f' :: 'u' :: cs', 0, ('f' :: 'u' :: cs').length, line⟩ =
                        checkKeyword ⟨'f' :: 'u' :: cs', 0, ('f' :: 'u' :: cs').length, line⟩
                          (('f' :: 'u' :: cs').length - 0) 2 1 (String.toList "n") TokenType.FUN := by
                      simp [identifierType, charAt]
                    rw [hL, checkKeyword_off2 'f' 'u' cs' (String.toList "n") line 1 rfl]
                    by_cases h : cs' = String.toList "n"
                    · subst h
                      simp [keywordSpec]
                    · simp [keywordSpec, h]
                  · have hL : identifierType ⟨'f' :: c1 :: cs', 0, ('f' :: c1 :: cs').length, line⟩ =
                        TokenType.IDENTIFIER := by
                      simp [identifierType, charAt, hs1, hs2, hs3]
                    rw [hL]
                    have hR : keywordSpec ('f' :: c1 :: cs') = TokenType.IDENTIFIER := by
                      simp [keywordSpec, hs1, hs2, hs3]
                    rw [hR]
          · by_cases hci : c = 'i'
            · subst hci
              have hL : identifierType ⟨'i' :: cs, 0, ('i' :: cs).length, line⟩ =
                  checkKeyword ⟨'i' :: cs, 0, ('i' :: cs).length, line⟩
                    (('i' :: cs).length - 0) 1 1 (String.toList "f") TokenType.IF := by
                simp [identifierType, charAt]
              rw [hL, checkKeyword_off1 'i' cs (String.toList "f") line 1 rfl]
              by_cases h : cs = String.toList "f"
              · subst h
                simp [keywordSpec]
              · simp [keywordSpec, h]
            · by_cases hcl : c = 'l'
              · subst hcl
                have hL : identifierType ⟨'l' :: cs, 0, ('l' :: cs).length, line⟩ =
                    checkKeyword ⟨'l' :: cs, 0, ('l' :: cs).length, line⟩
                      (('l' :: cs).length - 0) 1 2 (String.toList "et") TokenType.LET := by
                  simp [identifierType, charAt]
                rw [hL, checkKeyword_off1 'l' cs (String.toList "et") line 2 rfl]
                by_cases h : cs = String.toList "et"
                · subst h
                  simp [keywordSpec]
                · simp [keywordSpec, h]
              · by_cases hcn : c = 'n'
                · subst hcn
                  have hL : identifierType ⟨'n' :: cs, 0, ('n' :: cs).length, line⟩ =
                      checkKeyword ⟨'n' :: cs, 0, ('n' :: cs).length, line⟩
                        (('n' :: cs).length - 0) 1 3 (String.toList "ull") TokenType.NULL := by
                    simp [identifierType, charAt]
                  rw [hL, checkKeyword_off1 'n' cs (String.toList "ull") line 3 rfl]
                  by_cases h : cs = String.toList "ull"
                  · subst h
                    simp [keywordSpec]
                  · simp [keywordSpec, h]
                · by_cases hco : c = 'o'
                  · subst hco
                    have hL : identifierType ⟨'o' :: cs, 0, ('o' :: cs).length, line⟩ =
                        checkKeyword ⟨'o' :: cs, 0, ('o' :: cs).length, line⟩
                          (('o' :: cs).length - 0) 1 1 (String.toList "r") TokenType.OR := by
                      simp [identifierType, charAt]
                    rw [hL, checkKeyword_off1 'o' cs (String.toList "r") line 1 rfl]
                    by_cases h : cs = String.toList "r"
                    · subst h
                      simp [keywordSpec]
                    · simp [keywordSpec, h]
                  · by_cases hcp : c = 'p'
                    · subst hcp
                      have hL : identifierType ⟨'p' :: cs, 0, ('p' :: cs).length, line⟩ =
                          checkKeyword ⟨'p' :: cs, 0, ('p' :: cs).length, line⟩
                            (('p' :: cs).length - 0) 1 4 (String.toList "rint") TokenType.PRINT := by
                        simp [identifierType, charAt]
                      rw [hL, checkKeyword_off1 'p' cs (String.toList "rint") line 4 rfl]
                      by_cases h : cs = String.toList "rint"
                      · subst h
                        simp [keywordSpec]
                      · simp [keywordSpec, h]
                    · by_cases hcr : c = 'r'
                      · subst hcr
                        have hL : identifierType ⟨'r' :: cs, 0, ('r' :: cs).length, line⟩ =
                            checkKeyword ⟨'r' :: cs, 0, ('r' :: cs).length, line⟩
                              (('r' :: cs).length - 0) 1 5 (String.toList "eturn") TokenType.RETURN := by
                          simp [identifierType, charAt]
                        rw [hL, checkKeyword_off1 'r' cs (String.toList "eturn") line 5 rfl]
                        by_cases h : cs = String.toList "eturn"
                        · subst h
                          simp [keywordSpec]
                        · simp [keywordSpec, h]
                      · by_cases hcs : c = 's'
                        · subst hcs
                          have hL : identifierType ⟨'s' :: cs, 0, ('s' :: cs).length, line⟩ =
                              checkKeyword ⟨'s' :: cs, 0, ('s' :: cs).length, line⟩
                                (('s' :: cs).length - 0) 1 4 (String.toList "uper") TokenType.SUPER := by
                            simp [identifierType, charAt]
                          rw [hL, checkKeyword_off1 's' cs (String.toList "uper") line 4 rfl]
                          by_cases h : cs = String.toList "uper"
                          · subst h
                            simp [keywordSpec]
                          · simp [keywordSpec, h]
                        · by_cases hct : c = 't'
                          · subst hct
                            cases cs with
                            | nil =>
                              simp [identifierType, keywordSpec, charAt]
                            | cons c1 cs' =>
                              by_cases hs1 : c1 = 'h'
                              · subst hs1
                                have hL : identifierType ⟨'t' :: 'h' :: cs', 0, ('t' :: 'h' :: cs').length, line⟩ =
                                    checkKeyword ⟨'t' :: 'h' :: cs', 0, ('t' :: 'h' :: cs').length, line⟩
                                      (('t' :: 'h' :: cs').length - 0) 2 2 (String.toList "is") TokenType.THIS := by
                                  simp [identifierType, charAt]
                                rw [hL, checkKeyword_off2 't' 'h' cs' (String.toList "is") line 2 rfl]
                                by_cases h : cs' = String.toList "is"
                                · subst h
                                  simp [keywordSpec]
                                · simp [keywordSpec, h]
                              · by_cases hs2 : c1 = 'r'
                                · subst hs2
                                  have hL : identifierType ⟨'t' :: 'r' :: cs', 0, ('t' :: 'r' :: cs').length, line⟩ =
                                      checkKeyword ⟨'t' :: 'r' :: cs', 0, ('t' :: 'r' :: cs').length, line⟩
                                        (('t' :: 'r' :: cs').length - 0) 2 2 (String.toList "ue") TokenType.TRUE := by
                                    simp [identifierType, charAt]
                                  rw [hL, checkKeyword_off2 't' 'r' cs' (String.toList "ue") line 2 rfl]
                                  by_cases h : cs' = String.toList "ue"
                                  · subst h
                                    simp [keywordSpec]
                                  · simp [keywordSpec, h]
                                · have hL : identifierType ⟨'t' :: c1 :: cs', 0, ('t' :: c1 :: cs').length, line⟩ =
                                      TokenType.IDENTIFIER := by
                                    simp [identifierType, charAt, hs1, hs2]
                                  rw [hL]
                                  have hR : keywordSpec ('t' :: c1 :: cs') = TokenType.IDENTIFIER := by
                                    simp [keywordSpec, hs1, hs2]
                                  rw [hR]
                          · by_cases hcv : c = 'v'
                            · subst hcv
                              have hL : identifierType ⟨'v' :: cs, 0, ('v' :: cs).length, line⟩ =
                                  checkKeyword ⟨'v' :: cs, 0, ('v' :: cs).length, line⟩
                                    (('v' :: cs).length - 0) 1 2 (String.toList "ar") TokenType.VAR := by
                                simp [identifierType, charAt]
                              rw [hL, checkKeyword_off1 'v' cs (String.toList "ar") line 2 rfl]
                              by_cases h : cs = String.toList "ar"
                              · subst h
                                simp [keywordSpec]
                              · simp [keywordSpec, h]
                            · by_cases hcw : c = 'w'
                              · subst hcw
                                have hL : identifierType ⟨'w' :: cs, 0, ('w' :: cs).length, line⟩ =
                                    checkKeyword ⟨'w' :: cs, 0, ('w' :: cs).length, line⟩
                                      (('w' :: cs).length - 0) 1 4 (String.toList "hile") TokenType.WHILE := by
                                  simp [identifierType, charAt]
                                rw [hL, checkKeyword_off1 'w' cs (String.toList "hile") line 4 rfl]
                                by_cases h : cs = String.toList "hile"
                                · subst h
                                  simp [keywordSpec]
                                · simp [keywordSpec, h]
                              · have hL : identifierType ⟨c :: cs, 0, (c :: cs).length, line⟩ =
                                    TokenType.IDENTIFIER := by
                                  simp [identifierType, charAt, hca, hcc, hce, hcf, hci, hcl, hcn, hco, hcp, hcr, hcs, hct, hcv, hcw]
                                rw [hL]
                                have hR : keywordSpec (c :: cs) = TokenType.IDENTIFIER := by
                                  simp [keywordSpec, List.cons_eq_cons, hca, hcc, hce, hcf, hci, hcl, hcn, hco, hcp, hcr, hcs, hct, hcv, hcw]
                                rw [hR]

theorem scanTokenF_succ_eq (fuel : Nat) (sc : Scanner) :
    scanTokenF (fuel + 1) sc =
      (if isAtEnd { (skipWs (fuelOf sc) sc) with start := (skipWs (fuelOf sc) sc).current } then
        ({ (skipWs (fuelOf sc) sc) with start := (skipWs (fuelOf sc) sc).current },
          makeToken { (skipWs (fuelOf sc) sc) with start := (skipWs (fuelOf sc) sc).current } TokenType.EOF)
      else if charAt (skipWs (fuelOf sc) sc) (skipWs (fuelOf sc) sc).current = '(' then
        ({ (skipWs (fuelOf sc) sc) with start := (skipWs (fuelOf sc) sc).current, current := (skipWs (fuelOf sc) sc).current + 1 },
          makeToken { (skipWs (fuelOf sc) sc) with start := (skipWs (fuelOf sc) sc).current, current := (skipWs (fuelOf sc) sc).current + 1 } TokenType.LEFT_PAREN)
      else if charAt (skipWs (fuelOf sc) sc) (skipWs (fuelOf sc) sc).current = ')' then
        ({ (skipWs (fuelOf sc) sc) with start := (skipWs (fuelOf sc) sc).current, current := (skipWs (fuelOf sc) sc).current + 1 },
          makeToken { (skipWs (fuelOf sc) sc) with start := (skipWs (fuelOf sc) sc).current, current := (skipWs (fuelOf sc) sc).current + 1 } TokenType.RIGHT_PAREN)
      else if charAt (skipWs (fuelOf sc) sc) (skipWs (fuelOf sc) sc).current = '\x7b' then
        ({ (skipWs (fuelOf sc) sc) with start := (skipWs (fuelOf sc) sc).current, current := (skipWs (fuelOf sc) sc).current + 1 },
          makeToken { (skipWs (fuelOf sc) sc) with start := (skipWs (fuelOf sc) sc).current, current := (skipWs (fuelOf sc) sc).current + 1 } TokenType.LEFT_BRACE)
      else if charAt (skipWs (fuelOf sc) sc) (skipWs (fuelOf sc) sc).current = '\x7d' then
        ({ (skipWs (fuelOf sc) sc) with start := (skipWs (fuelOf sc) sc).current, current := (skipWs (fuelOf sc) sc).current + 1 },
          makeToken { (skipWs (fuelOf sc) sc) with start := (skipWs (fuelOf sc) sc).current, current := (skipWs (fuelOf sc) sc).current + 1 } TokenType.RIGHT_BRACE)
      else if charAt (skipWs (fuelOf sc) sc) (skipWs (fuelOf sc) sc).current = ';' then
        ({ (skipWs (fuelOf sc) sc) with start := (skipWs (fuelOf sc) sc).current, current := (skipWs (fuelOf sc) sc).current + 1 },
          makeToken { (skipWs (fuelOf sc) sc) with start := (skipWs (fuelOf sc) sc).current, current := (skipWs (fuelOf sc) sc).current + 1 } TokenType.SEMICOLON)
      else if charAt (skipWs (fuelOf sc) sc) (skipWs (fuelOf sc) sc).current = ',' then
        ({ (skipWs (fuelOf sc) sc) with start := (skipWs (fuelOf sc) sc).current, current := (skipWs (fuelOf sc) sc).current + 1 },
          makeToken { (skipWs (fuelOf sc) sc) with start := (skipWs (fuelOf sc) sc).current, current := (skipWs (fuelOf sc) sc).current + 1 } TokenType.COMMA)
      else if charAt (skipWs (fuelOf sc) sc) (skipWs (fuelOf sc) sc).current = '.' then
        ({ (skipWs (fuelOf sc) sc) with start := (skipWs (fuelOf sc) sc).current, current := (skipWs (fuelOf sc) sc).current + 1 },
          makeToken { (skipWs (fuelOf sc) sc) with start := (skipWs (fuelOf sc) sc).current, current := (skipWs (fuelOf sc) sc).current + 1 } TokenType.DOT)
      else if charAt (skipWs (fuelOf sc) sc) (skipWs (fuelOf sc) sc).current = '-' then
        ({ (skipWs (fuelOf sc) sc) with start := (skipWs (fuelOf sc) sc).current, current := (skipWs (fuelOf sc) sc).current + 1 },
          makeToken { (skipWs (fuelOf sc) sc) with start := (skipWs (fuelOf sc) sc).current, current := (skipWs (fuelOf sc) sc).current + 1 } TokenType.MINUS)
      else if charAt (skipWs (fuelOf sc) sc) (skipWs (fuelOf sc) sc).current = '+' then
        ({ (skipWs (fuelOf sc) sc) with start := (skipWs (fuelOf sc) sc).current, current := (skipWs (fuelOf sc) sc).current + 1 },
          makeToken { (skipWs (fuelOf sc) sc) with start := (skipWs (fuelOf sc) sc).current, current := (skipWs (fuelOf sc) sc).current + 1 } TokenType.PLUS)
      else if charAt (skipWs (fuelOf sc) sc) (skipWs (fuelOf sc) sc).current = '*' then
        ({ (skipWs (fuelOf sc) sc) with start := (skipWs (fuelOf sc) sc).current, current := (skipWs (fuelOf sc) sc).current + 1 },
          makeToken { (skipWs (fuelOf sc) sc) with start := (skipWs (fuelOf sc) sc).current, current := (skipWs (fuelOf sc) sc).current + 1 } TokenType.STAR)
      else if charAt (skipWs (fuelOf sc) sc) (skipWs (fuelOf sc) sc).current = '"' then
        string { (skipWs (fuelOf sc) sc) with start := (skipWs (fuelOf sc) sc).current, current := (skipWs (fuelOf sc) sc).current + 1 }
      else if charAt (skipWs (fuelOf sc) sc) (skipWs (fuelOf sc) sc).current = '/' then
        match matchChar { (skipWs (fuelOf sc) sc) with start := (skipWs (fuelOf sc) sc).current, current := (skipWs (fuelOf sc) sc).current + 1 } '/' with
        | (sc, true) => scanTokenF fuel (commentBody (fuelOf sc) sc)
        | (sc, false) => (sc, makeToken sc TokenType.SLASH)
      else if charAt (skipWs (fuelOf sc) sc) (skipWs (fuelOf sc) sc).current = '!' then
        match matchChar { (skipWs (fuelOf sc) sc) with start := (skipWs (fuelOf sc) sc).current, current := (skipWs (fuelOf sc) sc).current + 1 } '=' with
        | (sc, m) => (sc, makeToken sc (if m then TokenType.BANG_EQUAL else TokenType.BANG))
      else if charAt (skipWs (fuelOf sc) sc) (skipWs (fuelOf sc) sc).current = '=' then
        match matchChar { (skipWs (fuelOf sc) sc) with start := (skipWs (fuelOf sc) sc).current, current := (skipWs (fuelOf sc) sc).current + 1 } '=' with
        | (sc, m) => (sc, makeToken sc (if m then TokenType.EQUAL_EQUAL else TokenType.EQUAL))
      else if charAt (skipWs (fuelOf sc) sc) (skipWs (fuelOf sc) sc).current = '<' then
        match matchChar { (skipWs (fuelOf sc) sc) with start := (skipWs (fuelOf sc) sc).current, current := (skipWs (fuelOf sc) sc).current + 1 } '=' with
        | (sc, m) => (sc, makeToken sc (if m then TokenType.LESS_EQUAL else TokenType.LESS))
      else if charAt (skipWs (fuelOf sc) sc) (skipWs (fuelOf sc) sc).current = '>' then
        match matchChar { (skipWs (fuelOf sc) sc) with start := (skipWs (fuelOf sc) sc).current, current := (skipWs (fuelOf sc) sc).current + 1 } '=' with
        | (sc, m) => (sc, makeToken sc (if m then TokenType.GREATER_EQUAL else TokenType.GREATER))
      else if isDigit (charAt (skipWs (fuelOf sc) sc) (skipWs (fuelOf sc) sc).current) then number { (skipWs (fuelOf sc) sc) with start := (skipWs (fuelOf sc) sc).current, current := (skipWs (fuelOf sc) sc).current + 1 }
      else if isAlpha (charAt (skipWs (fuelOf sc) sc) (skipWs (fuelOf sc) sc).current) then identifier { (skipWs (fuelOf sc) sc) with start := (skipWs (fuelOf sc) sc).current, current := (skipWs (fuelOf sc) sc).current + 1 }
      else
        ({ (skipWs (fuelOf sc) sc) with start := (skipWs (fuelOf sc) sc).current, current := (skipWs (fuelOf sc) sc).current + 1 },
          errorToken { (skipWs (fuelOf sc) sc) with start := (skipWs (fuelOf sc) sc).current, current := (skipWs (fuelOf sc) sc).current + 1 }
            (String.toList "Unexpected character.")
        )) := rfl

theorem keywordSpec_eq_identifier_of_not_mem (l : List Char)
    (hm : l ∉ keywordList) : keywordSpec l = TokenType.IDENTIFIER := by
  simp only [keywordList, List.mem_cons, List.not_mem_nil, or_false, not_or] at hm
  obtain ⟨k1, k2, k3, k4, k5, k6, k7, k8, k9, k10, k11, k12, k13, k14, k15,
    k16, k17, k18⟩ := hm
  unfold keywordSpec
  rw [if_neg k1, if_neg k2, if_neg k3, if_neg k4, if_neg k5, if_neg k6,
    if_neg k7, if_neg k8, if_neg k9, if_neg k10, if_neg k11, if_neg k12,
    if_neg k13, if_neg k14, if_neg k15, if_neg k16, if_neg k17, if_neg k18]

theorem keywordSpec_ne_identifier_iff (l : List Char) :
    keywordSpec l ≠ TokenType.IDENTIFIER ↔ l ∈ keywordList := by
  by_cases hm : l ∈ keywordList
  · simp only [keywordList, List.mem_cons, List.not_mem_nil, or_false] at hm
    rcases hm with rfl | rfl | rfl | rfl | rfl | rfl | rfl | rfl | rfl | rfl | rfl |
      rfl | rfl | rfl | rfl | rfl | rfl | rfl <;> decide
  · rw [keywordSpec_eq_identifier_of_not_mem l hm]
    simp [hm]

theorem keywordSpec_ne_eof (l : List Char) : keywordSpec l ≠ TokenType.EOF := by
  by_cases hm : l ∈ keywordList
  · simp only [keywordList, List.mem_cons, List.not_mem_nil, or_false] at hm
    rcases hm with rfl | rfl | rfl | rfl | rfl | rfl | rfl | rfl | rfl | rfl | rfl |
      rfl | rfl | rfl | rfl | rfl | rfl | rfl <;> decide
  · rw [keywordSpec_eq_identifier_of_not_mem l hm]
    decide

set_option maxHeartbeats 1600000 in
/-- C6: keyword classification.  Scanning an identifier-shaped input — a
first character that is a letter or underscore followed by letters,
digits and underscores — yields exactly one token spanning the whole
input whose kind is `keywordSpec` of the lexeme (the keyword's kind
exactly when the entire lexeme is string-equal to that reserved word,
else a plain identifier), followed by end-of-source; and `keywordSpec`
assigns a keyword kind exactly for the 18 reserved words, so matching is
case-sensitive and requires exact length equality. -/
theorem keyword_classification (c : Char) (cs : List Char)
    (h1 : isAlpha c = true) (h2 : ∀ x ∈ cs, isAlphaNumeric x = true) :
    tokenList (initScanner (some (c :: cs))) 2 =
      [⟨keywordSpec (c :: cs), c :: cs, 1⟩, ⟨TokenType.EOF, [], 1⟩] ∧
    (keywordSpec (c :: cs) ≠ TokenType.IDENTIFIER ↔ (c :: cs) ∈ keywordList) := by
  refine ⟨?_, keywordSpec_ne_identifier_iff _⟩
  have hch : charAt (⟨c :: cs, 0, 0, 1⟩ : Scanner) 0 = c := by simp [charAt]
  have hcnul : c ≠ nul := isAlpha_ne c nul h1 (by decide)
  have hsw : skipWs (fuelOf (⟨c :: cs, 0, 0, 1⟩ : Scanner)) ⟨c :: cs, 0, 0, 1⟩ =
      ⟨c :: cs, 0, 0, 1⟩ :=
    skipWs_eq_self _ _
      (show charAt (⟨c :: cs, 0, 0, 1⟩ : Scanner) 0 ≠ ' ' from by
        rw [hch]; exact isAlpha_ne c ' ' h1 (by decide))
      (show charAt (⟨c :: cs, 0, 0, 1⟩ : Scanner) 0 ≠ '\r' from by
        rw [hch]; exact isAlpha_ne c '\r' h1 (by decide))
      (show charAt (⟨c :: cs, 0, 0, 1⟩ : Scanner) 0 ≠ '\t' from by
        rw [hch]; exact isAlpha_ne c '\t' h1 (by decide))
      (show charAt (⟨c :: cs, 0, 0, 1⟩ : Scanner) 0 ≠ '\n' from by
        rw [hch]; exact isAlpha_ne c '\n' h1 (by decide))
  have hall : ∀ j, 1 ≤ j → j < (c :: cs).length →
      isAlphaNumeric ((c :: cs).getD j nul) = true := by
    intro j hj1 hj2
    obtain ⟨j', rfl⟩ : ∃ j', j = j' + 1 := ⟨j - 1, by omega⟩
    have hj' : j' < cs.length := by
      simp at hj2
      omega
    rw [show (c :: cs).getD (j' + 1) nul = cs.getD j' nul from rfl,
      List.getD_eq_getElem cs nul hj']
    exact h2 _ (List.getElem_mem hj')
  have hidl : identLoop (fuelOf (⟨c :: cs, 0, 1, 1⟩ : Scanner)) ⟨c :: cs, 0, 1, 1⟩ =
      ⟨c :: cs, 0, (c :: cs).length, 1⟩ :=
    identLoop_all _ _ (show 1 ≤ (c :: cs).length from by simp)
      (fun j hj1 hj2 => hall j hj1 hj2)
      (show (c :: cs).length - 1 ≤ (c :: cs).length + 1 - 1 from by omega)
  have hident : identifier (⟨c :: cs, 0, 1, 1⟩ : Scanner) =
      (⟨c :: cs, 0, (c :: cs).length, 1⟩, ⟨keywordSpec (c :: cs), c :: cs, 1⟩) := by
    simp only [identifier]
    rw [hidl, identifierType_eq_keywordSpec]
    simp [makeToken, lexemeOf]
  have hscan : scanToken (⟨c :: cs, 0, 0, 1⟩ : Scanner) =
      scanTokenF ((c :: cs).length + 1) ⟨c :: cs, 0, 0, 1⟩ := by
    show scanTokenF (fuelOf (⟨c :: cs, 0, 0, 1⟩ : Scanner)) ⟨c :: cs, 0, 0, 1⟩ = _
    rw [show fuelOf (⟨c :: cs, 0, 0, 1⟩ : Scanner) = (c :: cs).length + 1 from by
      show (c :: cs).length + 1 - 0 = (c :: cs).length + 1
      omega]
  have hscan2 : scanToken (⟨c :: cs, 0, 0, 1⟩ : Scanner) =
      (⟨c :: cs, 0, (c :: cs).length, 1⟩, ⟨keywordSpec (c :: cs), c :: cs, 1⟩) := by
    rw [hscan, scanTokenF_succ_eq, hsw]
    show (if c == nul then
        ((⟨c :: cs, 0, 0, 1⟩ : Scanner), makeToken (⟨c :: cs, 0, 0, 1⟩ : Scanner) TokenType.EOF)
      else if c = '(' then
        ((⟨c :: cs, 0, 1, 1⟩ : Scanner), makeToken (⟨c :: cs, 0, 1, 1⟩ : Scanner) TokenType.LEFT_PAREN)
      else if c = ')' then
        ((⟨c :: cs, 0, 1, 1⟩ : Scanner), makeToken (⟨c :: cs, 0, 1, 1⟩ : Scanner) TokenType.RIGHT_PAREN)
      else if c = '\x7b' then
        ((⟨c :: cs, 0, 1, 1⟩ : Scanner), makeToken (⟨c :: cs, 0, 1, 1⟩ : Scanner) TokenType.LEFT_BRACE)
      else if c = '\x7d' then
        ((⟨c :: cs, 0, 1, 1⟩ : Scanner), makeToken (⟨c :: cs, 0, 1, 1⟩ : Scanner) TokenType.RIGHT_BRACE)
      else if c = ';' then
        ((⟨c :: cs, 0, 1, 1⟩ : Scanner), makeToken (⟨c :: cs, 0, 1, 1⟩ : Scanner) TokenType.SEMICOLON)
      else if c = ',' then
        ((⟨c :: cs, 0, 1, 1⟩ : Scanner), makeToken (⟨c :: cs, 0, 1, 1⟩ : Scanner) TokenType.COMMA)
      else if c = '.' then
        ((⟨c :: cs, 0, 1, 1⟩ : Scanner), makeToken (⟨c :: cs, 0, 1, 1⟩ : Scanner) TokenType.DOT)
      else if c = '-' then
        ((⟨c :: cs, 0, 1, 1⟩ : Scanner), makeToken (⟨c :: cs, 0, 1, 1⟩ : Scanner) TokenType.MINUS)
      else if c = '+' then
        ((⟨c :: cs, 0, 1, 1⟩ : Scanner), makeToken (⟨c :: cs, 0, 1, 1⟩ : Scanner) TokenType.PLUS)
      else if c = '*' then
        ((⟨c :: cs, 0, 1, 1⟩ : Scanner), makeToken (⟨c :: cs, 0, 1, 1⟩ : Scanner) TokenType.STAR)
      else if c = '"' then
        string (⟨c :: cs, 0, 1, 1⟩ : Scanner)
      else if c = '/' then
        match matchChar (⟨c :: cs, 0, 1, 1⟩ : Scanner) '/' with
        | (sc, true) => scanTokenF (c :: cs).length (commentBody (fuelOf sc) sc)
        | (sc, false) => (sc, makeToken sc TokenType.SLASH)
      else if c = '!' then
        match matchChar (⟨c :: cs, 0, 1, 1⟩ : Scanner) '=' with
        | (sc, m) => (sc, makeToken sc (if m then TokenType.BANG_EQUAL else TokenType.BANG))
      else if c = '=' then
        match matchChar (⟨c :: cs, 0, 1, 1⟩ : Scanner) '=' with
        | (sc, m) => (sc, makeToken sc (if m then TokenType.EQUAL_EQUAL else TokenType.EQUAL))
      else if c = '<' then
        match matchChar (⟨c :: cs, 0, 1, 1⟩ : Scanner) '=' with
        | (sc, m) => (sc, makeToken sc (if m then TokenType.LESS_EQUAL else TokenType.LESS))
      else if c = '>' then
        match matchChar (⟨c :: cs, 0, 1, 1⟩ : Scanner) '=' with
        | (sc, m) => (sc, makeToken sc (if m then TokenType.GREATER_EQUAL else TokenType.GREATER))
      else if isDigit c then number (⟨c :: cs, 0, 1, 1⟩ : Scanner)
      else if isAlpha c then identifier (⟨c :: cs, 0, 1, 1⟩ : Scanner)
      else ((⟨c :: cs, 0, 1, 1⟩ : Scanner), errorToken (⟨c :: cs, 0, 1, 1⟩ : Scanner) (String.toList "Unexpected character.")))
      = (⟨c :: cs, 0, (c :: cs).length, 1⟩, ⟨keywordSpec (c :: cs), c :: cs, 1⟩)
    rw [if_neg (show ¬((c == nul) = true) from by simp [hcnul])]
    rw [if_neg (isAlpha_ne c '(' h1 (by decide))]
    rw [if_neg (isAlpha_ne c ')' h1 (by decide))]
    rw [if_neg (isAlpha_ne c '\x7b' h1 (by decide))]
    rw [if_neg (isAlpha_ne c '\x7d' h1 (by decide))]
    rw [if_neg (isAlpha_ne c ';' h1 (by decide))]
    rw [if_neg (isAlpha_ne c ',' h1 (by decide))]
    rw [if_neg (isAlpha_ne c '.' h1 (by decide))]
    rw [if_neg (isAlpha_ne c '-' h1 (by decide))]
    rw [if_neg (isAlpha_ne c '+' h1 (by decide))]
    rw [if_neg (isAlpha_ne c '*' h1 (by decide))]
    rw [if_neg (isAlpha_ne c '"' h1 (by decide))]
    rw [if_neg (isAlpha_ne c '/' h1 (by decide))]
    rw [if_neg (isAlpha_ne c '!' h1 (by decide))]
    rw [if_neg (isAlpha_ne c '=' h1 (by decide))]
    rw [if_neg (isAlpha_ne c '<' h1 (by decide))]
    rw [if_neg (isAlpha_ne c '>' h1 (by decide))]
    rw [if_neg (show ¬(isDigit c = true) from by simp [isAlpha_not_isDigit c h1])]
    rw [if_pos h1]
    exact hident
  have hne_eof : keywordSpec (c :: cs) ≠ TokenType.EOF := keywordSpec_ne_eof _
  have htl : tokenList (⟨c :: cs, 0, 0, 1⟩ : Scanner) 2 =
      [⟨keywordSpec (c :: cs), c :: cs, 1⟩, ⟨TokenType.EOF, [], 1⟩] := by
    have hu1 : tokenList (⟨c :: cs, 0, 0, 1⟩ : Scanner) 2 =
        (let r := scanToken (⟨c :: cs, 0, 0, 1⟩ : Scanner)
         if r.2.type = TokenType.EOF then [r.2] else r.2 :: tokenList r.1 1) := rfl
    rw [hu1, hscan2]
    dsimp only
    rw [if_neg hne_eof]
    have hatEnd := scanToken_atEnd (⟨c :: cs, 0, (c :: cs).length, 1⟩ : Scanner)
      (charAt_of_le_length (Nat.le_refl _))
    have hu2 : tokenList (⟨c :: cs, 0, (c :: cs).length, 1⟩ : Scanner) 1 =
        (let r := scanToken (⟨c :: cs, 0, (c :: cs).length, 1⟩ : Scanner)
         if r.2.type = TokenType.EOF then [r.2] else r.2 :: tokenList r.1 0) := rfl
    rw [hu2, hatEnd]
    dsimp only
    rw [if_pos rfl]
  exact htl

/-- Witness for C6: `forest` scans to a single identifier token (not
`for` + `est`) and `for` scans to exactly the `for`-keyword token. -/
theorem keyword_classification_witness :
    isAlpha 'f' = true ∧ (∀ x ∈ String.toList "orest", isAlphaNumeric x = true) ∧
    (tokenList (initScanner (some ('f' :: String.toList "orest"))) 2 =
        [⟨keywordSpec ('f' :: String.toList "orest"), 'f' :: String.toList "orest", 1⟩,
          ⟨TokenType.EOF, [], 1⟩] ∧
      (keywordSpec ('f' :: String.toList "orest") ≠ TokenType.IDENTIFIER ↔
        ('f' :: String.toList "orest") ∈ keywordList)) ∧
    keywordSpec ('f' :: String.toList "orest") = TokenType.IDENTIFIER ∧
    tokenList (initScanner (some (String.toList "for"))) 2 =
      [⟨TokenType.FOR, String.toList "for", 1⟩, ⟨TokenType.EOF, [], 1⟩] :=
  ⟨by decide, by decide,
    keyword_classification 'f' (String.toList "orest") (by decide) (by decide),
    by decide, by decide⟩

end MiniJs
